import Mathlib

/-!
A shallow embedding of `bib-merger.py` (x-zang/bibTex-merger).

The embedding models the merge core exactly as the script computes it.  Per the
spec's scope boundary (§1), the textual BibTeX parser and raw file I/O are
external: the core consumes an ordered list of per-source record collections
(`List (List Entry)`, one inner list per input file, in ingestion order, each
inner list being the insertion-ordered contents of the per-file dictionary that
`parse_bib_file` returns, so keys are unique within one inner list) and
produces the canonical output sequence plus the conflict flags.

Modelling conventions:
* Python dictionaries are modelled as insertion-ordered association lists;
  dictionary grouping (`defaultdict`) is modelled by listing the distinct keys
  in first-occurrence order and pairing each with the encounter-ordered bucket,
  which is extensionally the same structure.
* Python `set` objects are modelled as insertion-ordered duplicate-free lists
  (`insertDedup`).  CPython iterates string sets in a hash-dependent order, so
  where the script iterates a set the model fixes one admissible order
  (insertion order); theorems that depend on a particular set order are about
  that admissible execution.
* Exceptions (`ValueError` from `int(...)` and `min([])`, `StopIteration` from
  `next(...)`, `sys.exit` from an operator abort) are modelled with `Except`.
* The interactive prompts are modelled by oracle functions giving the final
  accepted answer of each prompt loop; an out-of-range ordinal answer, which
  makes the script re-prompt forever with a deterministic oracle (so the run
  never completes), is modelled as an aborting error.
-/

namespace BibMerger

/-- Run-terminating conditions of the script: `ValueError` (bad `int(...)` or
`min` of an empty sequence), `StopIteration` (an exhausted `next(...)`), and an
operator abort (`sys.exit` from a prompt). -/
inductive PyErr where
  | valueError
  | stopIteration
  | abort
  deriving DecidableEq, Repr

instance [DecidableEq ε] [DecidableEq α] : DecidableEq (Except ε α) := fun x y =>
  match x, y with
  | Except.ok a, Except.ok b =>
      if h : a = b then Decidable.isTrue (congrArg Except.ok h)
      else Decidable.isFalse (fun hc => h (Except.ok.inj hc))
  | Except.error a, Except.error b =>
      if h : a = b then Decidable.isTrue (congrArg Except.error h)
      else Decidable.isFalse (fun hc => h (Except.error.inj hc))
  | Except.ok _, Except.error _ => Decidable.isFalse (fun hc => Except.noConfusion hc)
  | Except.error _, Except.ok _ => Decidable.isFalse (fun hc => Except.noConfusion hc)

/-- One parsed BibTeX record, as built by `parse_bib_file` (lines 66-73):
entry type (lower-cased), citation key, optional title (`None` when no title
field was found), the reconstructed raw text, and the source file name.
The `content` dictionary field is omitted because it is a substring of `raw`
and equality of records is unaffected. -/
structure Entry where
  etype : String
  key : String
  title : Option String
  raw : String
  source : String
  deriving DecidableEq, Repr, Inhabited

/-- ASCII lower-casing of one character (the fragment of Python's
`str.lower()` these records exercise; implemented by explicit cases so the
kernel can evaluate it). -/
def lowerChar (c : Char) : Char :=
  match c with
  | 'A' => 'a' | 'B' => 'b' | 'C' => 'c' | 'D' => 'd' | 'E' => 'e' | 'F' => 'f'
  | 'G' => 'g' | 'H' => 'h' | 'I' => 'i' | 'J' => 'j' | 'K' => 'k' | 'L' => 'l'
  | 'M' => 'm' | 'N' => 'n' | 'O' => 'o' | 'P' => 'p' | 'Q' => 'q' | 'R' => 'r'
  | 'S' => 's' | 'T' => 't' | 'U' => 'u' | 'V' => 'v' | 'W' => 'w' | 'X' => 'x'
  | 'Y' => 'y' | 'Z' => 'z'
  | c => c

/-- `str.lower()` on a whole string. -/
def toLowerStr (s : String) : String :=
  ⟨s.data.map lowerChar⟩

/-- Lexicographic (code-point) strict comparison of character lists: the
order Python uses for `str` comparison. -/
def ltChars : List Char → List Char → Bool
  | [], [] => false
  | [], _ :: _ => true
  | _ :: _, [] => false
  | a :: as, b :: bs => if a < b then true else if b < a then false else ltChars as bs

/-- Python `s1 < s2` on strings. -/
def strLtB (a b : String) : Bool :=
  ltChars a.data b.data

/-- Python `s1 <= s2` on strings. -/
def strLeB (a b : String) : Bool :=
  strLtB a b || a == b

/-- Python `s.endswith(suffix)`. -/
def endsWithStr (s suffix : String) : Bool :=
  suffix.data.isSuffixOf s.data

/-- Python `s.split(sep)` for a one-character separator, on character
lists. -/
def splitCharsOn (sep : Char) : List Char → List (List Char)
  | [] => [[]]
  | c :: cs =>
    let r := splitCharsOn sep cs
    if c = sep then [] :: r else (c :: r.headD []) :: r.tail

/-- Python `key.split('_')` (line 190). -/
def splitOnUnderscore (s : String) : List String :=
  (splitCharsOn '_' s.data).map (fun l => ⟨l⟩)

/-- The whitespace characters Python's `int(str)` strips. -/
def isSpaceChar (c : Char) : Bool :=
  c = ' ' ∨ c = '\t' ∨ c = '\n' ∨ c = '\r'

/-- Strip leading and trailing whitespace from a character list. -/
def trimChars (l : List Char) : List Char :=
  ((l.dropWhile isSpaceChar).reverse.dropWhile isSpaceChar).reverse

/-- The normalized title used throughout the script:
`entry['title'].lower() if entry['title'] else None` (lines 218, 288-289, 311).
Python truthiness makes the empty string count as "no title". -/
def normTitle (e : Entry) : Option String :=
  match e.title with
  | none => none
  | some t => if t = "" then none else some (toLowerStr t)

/-- Insertion-ordered set insert (model of Python `set.add` /
"append if not already present"). -/
def insertDedup [BEq α] (l : List α) (a : α) : List α :=
  if l.contains a then l else l ++ [a]

/-- First-occurrence-order deduplication of a list (the key sequence of a
Python dict built by repeated insertion). -/
def dedupList [BEq α] (l : List α) : List α :=
  l.foldl insertDedup []

/-- Last element of a list, with a fallback for the empty list (the final
value of a loop variable, or its prior value if the loop body never ran). -/
def lastD (l : List α) (dflt : α) : α :=
  match l with
  | [] => dflt
  | [a] => a
  | _ :: b :: bs => lastD (b :: bs) dflt

/-- Association-list lookup (Python `m[k]` / `k in m`). -/
def assocFindOpt [BEq α] (m : List (α × β)) (k : α) : Option β :=
  (m.find? (fun p => p.1 == k)).map (·.2)

/-- Association-list update `m[k] = v`: overwrite in place if present
(keeping the key's original position, as a Python dict does), else append. -/
def assocSet [BEq α] (m : List (α × β)) (k : α) (v : β) : List (α × β) :=
  if (m.find? (fun p => p.1 == k)).isSome then
    m.map (fun p => if p.1 == k then (p.1, v) else p)
  else m ++ [(k, v)]

/-- Left-to-right effectful map over `Except` (a Python list comprehension
whose body may raise): stops at the first error. -/
def mapExcept (f : α → Except PyErr β) : List α → Except PyErr (List β)
  | [] => Except.ok []
  | a :: as => do
      let b ← f a
      let bs ← mapExcept f as
      pure (b :: bs)

/-- Python `int(s)` on a string, as far as this program exercises it:
optional surrounding whitespace, an optional sign, then decimal digits.
`none` models a raised `ValueError`. -/
def pyIntStr (s : String) : Option Int :=
  let t := trimChars s.data
  match t with
  | [] => none
  | c :: rest =>
    let digits := if c = '+' ∨ c = '-' then rest else t
    let sign : Int := if c = '-' then -1 else 1
    if digits ≠ [] ∧ digits.all (·.isDigit) then
      some (sign * ((digits.foldl (fun n d => n * 10 + (d.toNat - '0'.toNat)) 0 : Nat) : Int))
    else none

/-- `get_file_index` inside `choose_entry_from_smallest_index` (lines 187-193):
split the entry's **citation key** on `_`; if it has at least two parts, call
`int` on the second-to-last part (which raises `ValueError` when that part is
not a numeral), otherwise return `float('inf')` (modelled as `none`). -/
def get_file_index (e : Entry) : Except PyErr (Option Int) :=
  let parts := splitOnUnderscore e.key
  if parts.length ≥ 2 then
    match pyIntStr (parts.getD (parts.length - 2) "") with
    | some n => Except.ok (some n)
    | none => Except.error PyErr.valueError
  else Except.ok none

/-- Strict comparison of file indexes, with `none` playing `float('inf')`. -/
def idxLt : Option Int → Option Int → Bool
  | some a, some b => decide (a < b)
  | some _, none => true
  | none, _ => false

/-- `choose_entry_from_smallest_index` (lines 184-196): `min` over the
candidates keyed by `get_file_index`, keeping the earliest minimum, evaluating
the key of each candidate in iteration order (so the first key failure
propagates); `min` of an empty sequence raises `ValueError`. -/
def choose_entry_from_smallest_index (entries : List Entry) : Except PyErr Entry :=
  match entries with
  | [] => Except.error PyErr.valueError
  | e :: es => do
    let k ← get_file_index e
    let best ← es.foldlM (fun best x => do
        let kx ← get_file_index x
        pure (if idxLt kx best.2 then (x, kx) else best)) (e, k)
    pure best.1

/-- The per-file `titles_to_keys` mapping (lines 286-289): normalized title of
each titled record of the file, mapped to the list of keys carrying it, titles
in first-occurrence order, keys in encounter order. -/
def titlesToKeys (file : List Entry) : List (String × List String) :=
  (dedupList (file.filterMap normTitle)).map
    (fun t => (t, (file.filter (fun e => normTitle e == some t)).map (·.key)))

/-- `next(e for e in all_entries.values() if e['key'] == k)` (line 327 and
line 339): the first record, in ingestion order, with the given key;
`StopIteration` if there is none. -/
def firstWithKey (all : List Entry) (k : String) : Except PyErr Entry :=
  match all.find? (fun e => e.key == k) with
  | some e => Except.ok e
  | none => Except.error PyErr.stopIteration

/-- `next(e for e in all_entries.values() if e['key'] == key and
e['source'].endswith('.bib'))` (lines 95 and 119). -/
def firstWithKeyBib (all : List Entry) (k : String) : Except PyErr Entry :=
  match all.find? (fun e => e.key == k && endsWithStr e.source ".bib") with
  | some e => Except.ok e
  | none => Except.error PyErr.stopIteration

/-- Grouping of `(label, key)` occurrences by label, labels in first-occurrence
order (the nested `defaultdict` of lines 92-96 and 115-121, flattened to
`(type, title) → keys`, which carries the same buckets). -/
def groupAssocAll (l : List ((String × String) × String)) :
    List ((String × String) × List String) :=
  (dedupList (l.map (·.1))).map
    (fun lab => (lab, (l.filter (fun p => p.1 == lab)).map (·.2)))

/-- The within-one-file half of `check_same_title_different_keys`
(lines 89-112): every `(title, key)` occurrence of the file's
`titles_to_keys`, each attributed the type of the **first record anywhere**
with that key and a `.bib` source, grouped by `(type, title)`; an issue is a
group with more than one key. -/
def passAWithin (all : List Entry) (ttk : List (String × List String)) :
    Except PyErr Bool := do
  let pairs := ttk.flatMap (fun p => p.2.map (fun k => (k, p.1)))
  let tagged ← mapExcept (fun p => do
      let e ← firstWithKeyBib all p.1
      pure ((e.etype, p.2), p.1)) pairs
  pure ((groupAssocAll tagged).any (fun g => g.2.length > 1))

/-- The cross-file half of `check_same_title_different_keys` (lines 114-137):
all `(title, key)` occurrences of every file pooled together (the dedup test
of line 120 compares a key against `(key, file_idx)` tuples and so never
fires, hence occurrences are pooled with duplicates), grouped by looked-up
`(type, title)`; an issue is a group with more than one **distinct** key
(line 126 dedups through `set`). -/
def passACross (all : List Entry) (ttks : List (List (String × List String))) :
    Except PyErr Bool := do
  let pairs := ttks.flatMap (fun ttk => ttk.flatMap (fun p => p.2.map (fun k => (k, p.1))))
  let tagged ← mapExcept (fun p => do
      let e ← firstWithKeyBib all p.1
      pure ((e.etype, p.2), p.1)) pairs
  pure ((groupAssocAll tagged).any (fun g => (dedupList g.2).length > 1))

/-- `check_same_title_different_keys` (lines 85-139): the within-file checks
of every file in ingestion order, then the cross-file check; returns whether
any issue was reported.  The function only prints and returns the flag. -/
def check_same_title_different_keys (all : List Entry)
    (ttks : List (List (String × List String))) : Except PyErr Bool := do
  let within ← ttks.foldlM (fun acc ttk => do
      let b ← passAWithin all ttk
      pure (acc || b)) false
  let cross ← passACross all ttks
  pure (within || cross)

/-- Grouping of indexed records by a string projection, group labels in
first-occurrence order (the `defaultdict(list)` groupings of lines 204-206
and 212-214).  The index is the record's position in `all_entries`, which
identifies the Python object the `skip` flag is set on. -/
def groupPairsBy (f : Entry → String) (l : List (Nat × Entry)) :
    List (String × List (Nat × Entry)) :=
  (dedupList (l.map (fun p => f p.2))).map
    (fun k => (k, l.filter (fun p => f p.2 == k)))

/-- The `(key, type)` groups that `check_same_key_different_titles` iterates
(lines 210-217): records grouped by key, then by type within each key group. -/
def passBGroups (all : List Entry) : List ((String × String) × List (Nat × Entry)) :=
  (groupPairsBy (·.key) all.enum).flatMap
    (fun kg => (groupPairsBy (·.etype) kg.2).map (fun tg => ((kg.1, tg.1), tg.2)))

/-- Final accepted answer of a `get_user_choice_for_same_key` prompt
(lines 162-182): quit (`'q'` is not accepted there, but a non-numeric,
non-empty answer loops; quitting this prompt is impossible, yet an oracle that
never produces a valid answer stalls the run, modelled as `quit`), keep all
(empty answer), or a 1-based ordinal. -/
inductive KeyAnswer where
  | quit
  | keepAll
  | pick (n : Nat)

/-- Final accepted answer of a `get_user_choice` prompt (lines 141-160):
`'q'` quits, otherwise a 1-based ordinal. -/
inductive TitleAnswer where
  | quitT
  | pickT (n : Nat)

/-- Resolution mode: deterministic (`--no-interactive`) or interactive with
operator oracles (one for same-key conflicts, one for same-title conflicts). -/
inductive Mode where
  | auto
  | manual (oKey : String → List Entry → KeyAnswer)
           (oTitle : Option String → List String → TitleAnswer)

/-- State and outcome of `check_same_key_different_titles`: the issue flag,
the positions of records marked `skip`, the `key_to_chosen_entry` cache, and
the ordered list of `(key, type)` groups for which the operator was prompted. -/
structure PassBResult where
  issues : Bool
  skips : List Nat
  cache : List (String × Entry)
  log : List (String × String)
  deriving Repr

/-- One `(key, type)` group of `check_same_key_different_titles`
(lines 217-246): if the group carries more than one distinct normalized title
(`None` counting as a value), report an issue and resolve — deterministically
by `choose_entry_from_smallest_index`, or by the operator, asked only when the
key has no cached choice; every group record that differs (by value) from the
chosen record is marked `skip`.  A "keep all" answer caches nothing and skips
nothing. -/
def passBStep (mode : Mode) (st : PassBResult)
    (grp : (String × String) × List (Nat × Entry)) : Except PyErr PassBResult :=
  let titles := dedupList (grp.2.map (fun p => normTitle p.2))
  if titles.length > 1 then
    match mode with
    | Mode.auto => do
        let chosen ← choose_entry_from_smallest_index (grp.2.map (·.2))
        let newSkips := (grp.2.filter (fun p => decide (p.2 ≠ chosen))).map (·.1)
        pure ⟨true, st.skips ++ newSkips, assocSet st.cache grp.1.1 chosen, st.log⟩
    | Mode.manual oKey _ =>
        if (assocFindOpt st.cache grp.1.1).isSome then
          pure ⟨true, st.skips, st.cache, st.log⟩
        else
          match oKey grp.1.1 (grp.2.map (·.2)) with
          | KeyAnswer.quit => Except.error PyErr.abort
          | KeyAnswer.keepAll => pure ⟨true, st.skips, st.cache, st.log ++ [grp.1]⟩
          | KeyAnswer.pick n =>
              if 1 ≤ n ∧ n ≤ grp.2.length then
                let chosen := (grp.2.map (·.2)).getD (n - 1) default
                let newSkips := (grp.2.filter (fun p => decide (p.2 ≠ chosen))).map (·.1)
                pure ⟨true, st.skips ++ newSkips, assocSet st.cache grp.1.1 chosen,
                      st.log ++ [grp.1]⟩
              else Except.error PyErr.abort
  else pure st

/-- `check_same_key_different_titles` (lines 198-248). -/
def check_same_key_different_titles (mode : Mode) (all : List Entry) :
    Except PyErr PassBResult :=
  (passBGroups all).foldlM (passBStep mode) ⟨false, [], [], []⟩

/-- The `all_keys` collection loop of the merge phase (lines 322-329) for a
record with normalized title `t` and type `ty`.  For every file whose
`titles_to_keys` contains `t`, for every key `k` under it, the loop rebinds
the **outer loop variable** `entry` to the first record anywhere with key `k`
and, when that record's type matches `ty`, adds `k` to the `all_keys` set.
Returns the collected key set (insertion order) and the final value of the
clobbered `entry` variable (`e0`, the walked record, if the loop body never
ran). -/
def collectTitleGroup (all : List Entry) (ttks : List (List (String × List String)))
    (t ty : String) (e0 : Entry) : Except PyErr (List String × Entry) := do
  let ks := ttks.flatMap (fun ttk => (assocFindOpt ttk t).getD [])
  let ecs ← mapExcept (firstWithKey all) ks
  let allKeys := (ks.zip ecs).foldl
      (fun acc p => if p.2.etype == ty then insertDedup acc p.1 else acc) []
  pure (allKeys, lastD ecs e0)

/-- State of the merge loop (lines 307-344): the `merged_entries` dictionary,
the `title_to_chosen_key` cache, and the ordered list of `(type, title)`
conflicts for which the operator was prompted. -/
structure MergeState where
  merged : List (String × Entry)
  tcache : List ((String × String) × String)
  tlog : List (String × String)
  deriving Repr

/-- `if key not in merged_entries: merged_entries[key] = entry`
(lines 343-344). -/
def addMerged (st : MergeState) (k : String) (v : Entry) : MergeState :=
  if (assocFindOpt st.merged k).isSome then st
  else ⟨st.merged ++ [(k, v)], st.tcache, st.tlog⟩

/-- One iteration of the merge loop (lines 309-344) for a non-skipped record
`e`.  `key` is bound to `e`'s own key first (line 310).  A record with no
title, or whose `(type, title)` already has a cached chosen key, is stored
as-is (under the cached key in the latter case).  Otherwise the `all_keys`
collection runs — rebinding `entry`, so the record later stored under `key` is
the collection's final `entry` value — and if more than one key was collected
the surviving key is chosen deterministically (non-interactive) or by a
prompt whose answer is cached. -/
def mergeStep (mode : Mode) (all : List Entry)
    (ttks : List (List (String × List String))) (st : MergeState) (e : Entry) :
    Except PyErr MergeState :=
  match normTitle e with
  | none => pure (addMerged st e.key e)
  | some t =>
    match assocFindOpt st.tcache (e.etype, t) with
    | some kc => pure (addMerged st kc e)
    | none => do
      let r ← collectTitleGroup all ttks t e.etype e
      if r.1.length > 1 then
        match mode with
        | Mode.auto => do
            let ews ← mapExcept (firstWithKey all) r.1
            let chosen ← choose_entry_from_smallest_index ews
            pure (addMerged st chosen.key r.2)
        | Mode.manual _ oTitle =>
            match oTitle r.2.title r.1 with
            | TitleAnswer.quitT => Except.error PyErr.abort
            | TitleAnswer.pickT n =>
                if 1 ≤ n ∧ n ≤ r.1.length then
                  let ck := r.1.getD (n - 1) ""
                  pure (addMerged ⟨st.merged, st.tcache ++ [((e.etype, t), ck)],
                        st.tlog ++ [(e.etype, t)]⟩ ck r.2)
                else Except.error PyErr.abort
      else pure (addMerged st e.key r.2)

/-- The sort key of line 348: `(title.lower() if title else '', type, key)`. -/
def sortTitle (e : Entry) : String :=
  (normTitle e).getD ""

/-- Lexicographic comparison on the sort key of line 348 (Python tuple
comparison of strings). -/
def sortLe (a b : Entry) : Bool :=
  if sortTitle a == sortTitle b then
    (if a.etype == b.etype then strLeB a.key b.key else strLtB a.etype b.etype)
  else strLtB (sortTitle a) (sortTitle b)

/-- `sortLe` as a proposition, for `List.Pairwise` statements. -/
def sortLeP (a b : Entry) : Prop :=
  sortLe a b = true

/-- Stable insertion into a sorted list: the new element goes after every
element that compares `≤` to it. -/
def insertSortedStable (a : Entry) : List Entry → List Entry
  | [] => [a]
  | b :: bs => if sortLe b a then b :: insertSortedStable a bs else a :: b :: bs

/-- `sorted(..., key=lambda e: (title, type, key))` (lines 347-348), modelled
as a stable insertion sort: every stable sort under a total preorder produces
the same sequence, so this agrees with Python's sort. -/
def pySorted (l : List Entry) : List Entry :=
  l.foldl (fun acc e => insertSortedStable e acc) []

/-- The write loop of lines 351-353: each sorted record's raw text followed by
`"\n\n"`. -/
def serializeEntries (l : List Entry) : String :=
  l.foldl (fun s e => s ++ e.raw ++ "\n\n") ""

/-- Observable outcome of a completed `merge_bib_files` run: the sorted output
sequence, the flag of each checking pass, the final "inconsistencies were
found" flag actually reported (line 305 rebinds `has_issues`, discarding the
pass-A flag accumulated at line 302, so the final flag is the pass-B flag
alone), and the prompt logs. -/
structure MergeResult where
  output : List Entry
  passA : Bool
  passB : Bool
  finalFlag : Bool
  logKeyPrompts : List (String × String)
  logTitlePrompts : List (String × String)
  deriving DecidableEq, Repr

/-- `merge_bib_files` (lines 270-360), from the point where all files are
parsed: build the per-file `titles_to_keys` maps and `all_entries` (in
ingestion order; the `unique_key` handles of line 292 are distinct, so the
dictionary holds every record), run pass A, run pass B, walk every
non-skipped record through the merge loop, sort, and serialize.  The output
pre-existence check of line 273 is modelled separately
(`check_output_file`). -/
def merge_bib_files (mode : Mode) (files : List (List Entry)) :
    Except PyErr MergeResult := do
  let all := files.flatten
  let ttks := files.map titlesToKeys
  let pa ← check_same_title_different_keys all ttks
  let pb ← check_same_key_different_titles mode all
  let fin ← all.enum.foldlM
      (fun st p => if pb.skips.contains p.1 then pure st else mergeStep mode all ttks st p.2)
      (⟨[], [], []⟩ : MergeState)
  pure ⟨pySorted (fin.merged.map (·.2)), pa, pb.issues, pb.issues, pb.log, fin.tlog⟩

/-- Outcome of the pre-run output-file check. -/
inductive PrecheckOutcome where
  | proceed
  | exitZero
  | exitNonZero
  deriving DecidableEq, Repr

/-- `check_output_file` (lines 250-268): when the output file exists, the
`overwrite` parameter proceeds silently; otherwise interactive mode prompts
(an eventual `y` proceeds, an eventual `n` exits with status 0) and
non-interactive mode exits with status 1.  `answerYes` is the first valid
answer the prompt loop eventually accepts. -/
def check_output_file (existsOut interactive overwrite : Bool) (answerYes : Bool) :
    PrecheckOutcome :=
  if existsOut then
    if overwrite then PrecheckOutcome.proceed
    else if interactive then
      (if answerYes then PrecheckOutcome.proceed else PrecheckOutcome.exitZero)
    else PrecheckOutcome.exitNonZero
  else PrecheckOutcome.proceed

/-- The `__main__` call path (lines 362-377): `--overwrite` is parsed
(line 365) but `merge_bib_files` is called with only three arguments
(line 377), so `check_output_file` always receives its default
`overwrite=False`. -/
def mainPrecheck (existsOut noInteractiveFlag overwriteFlag : Bool)
    (answerYes : Bool) : PrecheckOutcome :=
  check_output_file existsOut (!noInteractiveFlag) false answerYes

/-- The record the merge loop stores for a walked record `e` in a run without
key or `(type, title)` collisions: the final value of the clobbered `entry`
variable after the collection loop, i.e. the last record anywhere sharing
`e`'s normalized title (of any type), or `e` itself when `e` has no title.
(A derived specification of lines 322-344 used to state the collision-free
characterization; not a function of the script itself.) -/
def storedSpec (files : List (List Entry)) (e : Entry) : Entry :=
  match normTitle e with
  | none => e
  | some t => lastD (files.flatten.filter (fun x => normTitle x == some t)) e

/-! ### Precondition predicates over a record store -/

/-- No two records anywhere share an identifier. -/
def keysNodup (files : List (List Entry)) : Prop :=
  (files.flatten.map (·.key)).Nodup

/-- No two records share a `(type, normalized title)` pair (untitled records
are unconstrained). -/
def typeTitleNodup (files : List (List Entry)) : Prop :=
  ∀ a ∈ files.flatten, ∀ b ∈ files.flatten,
    a.etype = b.etype → normTitle a = normTitle b → normTitle a ≠ none → a = b

/-- No two titled records share a normalized title at all. -/
def titlesNodup (files : List (List Entry)) : Prop :=
  (files.flatten.filterMap normTitle).Nodup

/-- Every record's source file name ends in `.bib` (true of every file
`parse_bib_file` is normally given; the lookups of lines 95 and 119 filter on
it and raise `StopIteration` otherwise). -/
def sourcesBib (files : List (List Entry)) : Prop :=
  ∀ e ∈ files.flatten, endsWithStr e.source ".bib" = true

/-! ### Concrete record stores used by the instance theorems -/

/-- File-0 record of the pass-A scenario: `@article` `keyA`, title
"Neural Nets". -/
def exA : Entry := ⟨"article", "keyA", some "Neural Nets", "rawA", "a.bib"⟩

/-- File-1 record of the pass-A scenario: `@article` `keyB`, same title,
different key. -/
def exB : Entry := ⟨"article", "keyB", some "Neural Nets", "rawB", "b.bib"⟩

/-- Same-key different-type pair, first record. -/
def exC0 : Entry := ⟨"article", "keyC", some "Alpha Work", "rawC0", "a.bib"⟩

/-- Same-key different-type pair, second record. -/
def exC1 : Entry := ⟨"book", "keyC", some "Beta Work", "rawC1", "b.bib"⟩

/-- Same-key different-title scenario, winning record (file 0). -/
def exD0 : Entry := ⟨"article", "keyD", some "Title One", "rawD0", "a.bib"⟩

/-- Same-key different-title scenario, losing record (file 1). -/
def exD1 : Entry := ⟨"article", "keyD", some "Title Two", "rawD1", "b.bib"⟩

/-- Innocent third record (file 2): its own identifier `keyE`, sharing only
the losing record's title. -/
def exD2 : Entry := ⟨"article", "keyE", some "Title Two", "rawD2", "c.bib"⟩

/-- A record whose citation key has underscore-separated parts with a
non-numeric second-to-last part. -/
def exSmith : Entry := ⟨"article", "smith_2020", some "Deep Stuff", "rawS", "a.bib"⟩

/-- Idempotence scenario, file 0: three same-type same-title records whose
keys decode to file indexes 0, 1, 2. -/
def exH0 : Entry := ⟨"article", "ka_0_f", some "Same Title", "rawH0", "a.bib"⟩

/-- Second record of the idempotence scenario. -/
def exH1 : Entry := ⟨"article", "kb_1_f", some "Same Title", "rawH1", "a.bib"⟩

/-- Third record of the idempotence scenario. -/
def exH2 : Entry := ⟨"article", "kc_2_f", some "Same Title", "rawH2", "a.bib"⟩

/-- Idempotence scenario, file 1: a different-type record reusing `exH1`'s
key with its own title. -/
def exH3 : Entry := ⟨"book", "kb_1_f", some "Other Title", "rawH3", "b.bib"⟩

/-- Interactive conflict scenario: two same-key same-type records with
different titles. -/
def exW0 : Entry := ⟨"article", "keyW", some "One Title", "rawW0", "a.bib"⟩

/-- Second record of the interactive conflict scenario. -/
def exW1 : Entry := ⟨"article", "keyW", some "Two Title", "rawW1", "b.bib"⟩

/-- Collision-free store, record 0. -/
def exV0 : Entry := ⟨"article", "keyV0", some "Va", "rawV0", "a.bib"⟩

/-- Collision-free store, record 1. -/
def exV1 : Entry := ⟨"book", "keyV1", some "Vb", "rawV1", "b.bib"⟩

/-! ## Theorems

### Generic helper lemmas -/

theorem except_bind_ok {α β : Type} (x : α) (g : α → Except PyErr β) :
    (Except.ok x >>= g) = g x := rfl

theorem except_bind_error {α β : Type} (e : PyErr) (g : α → Except PyErr β) :
    ((Except.error e : Except PyErr α) >>= g) = Except.error e := rfl

theorem except_pure {α : Type} (x : α) : (pure x : Except PyErr α) = Except.ok x := rfl

theorem mem_of_mem_enumFrom {α : Type} :
    ∀ (l : List α) (n : Nat) (p : Nat × α), p ∈ List.enumFrom n l → p.2 ∈ l := by
  intro l
  induction l with
  | nil => intro n p h; simp [List.enumFrom] at h
  | cons a as ih =>
      intro n p h
      rcases List.mem_cons.mp h with h | h
      · subst h; exact List.mem_cons_self _ _
      · exact List.mem_cons_of_mem _ (ih (n + 1) p h)

theorem mem_of_mem_enum {α : Type} (l : List α) (p : Nat × α) (h : p ∈ l.enum) :
    p.2 ∈ l :=
  mem_of_mem_enumFrom l 0 p h

theorem lastD_mem {α : Type} : ∀ (l : List α) (d : α), lastD l d = d ∨ lastD l d ∈ l := by
  intro l
  induction l with
  | nil => intro d; exact Or.inl rfl
  | cons a as ih =>
      intro d
      cases as with
      | nil => exact Or.inr (List.mem_cons_self _ _)
      | cons b bs =>
          rcases ih d with h | h
          · exact Or.inl (by simpa [lastD] using h)
          · exact Or.inr (by simpa [lastD] using List.mem_cons_of_mem a h)

theorem foldlM_inv {σ α : Type} (P : σ → Prop) (f : σ → α → Except PyErr σ) :
    ∀ (l : List α) (s s' : σ),
      (∀ t a t', a ∈ l → P t → f t a = Except.ok t' → P t') →
      P s → l.foldlM f s = Except.ok s' → P s' := by
  intro l
  induction l with
  | nil =>
      intro s s' _ hs h
      simp only [List.foldlM_nil, except_pure] at h
      cases h; exact hs
  | cons a as ih =>
      intro s s' hstep hs h
      rw [List.foldlM_cons] at h
      cases hfa : f s a with
      | error e => rw [hfa, except_bind_error] at h; cases h
      | ok t =>
          rw [hfa, except_bind_ok] at h
          exact ih t s'
            (fun u b u' hb => hstep u b u' (List.mem_cons_of_mem _ hb))
            (hstep s a t (List.mem_cons_self _ _) hs hfa) h

theorem mapExcept_mem {α β : Type} (f : α → Except PyErr β) (Q : β → Prop)
    (hf : ∀ a b, f a = Except.ok b → Q b) :
    ∀ (l : List α) (out : List β), mapExcept f l = Except.ok out → ∀ x ∈ out, Q x := by
  intro l
  induction l with
  | nil =>
      intro out h x hx
      simp only [mapExcept] at h
      cases h; cases hx
  | cons a as ih =>
      intro out h x hx
      simp only [mapExcept] at h
      cases hfa : f a with
      | error e => rw [hfa, except_bind_error] at h; cases h
      | ok b =>
          rw [hfa, except_bind_ok] at h
          cases hrest : mapExcept f as with
          | error e => rw [hrest, except_bind_error] at h; cases h
          | ok bs =>
              rw [hrest, except_bind_ok, except_pure] at h
              cases h
              rcases List.mem_cons.mp hx with hx | hx
              · subst hx; exact hf a x hfa
              · exact ih bs hrest x hx

theorem mapExcept_of_forall {α β : Type} (f : α → Except PyErr β) (g : α → β) :
    ∀ (l : List α), (∀ a ∈ l, f a = Except.ok (g a)) →
      mapExcept f l = Except.ok (l.map g) := by
  intro l
  induction l with
  | nil => intro _; rfl
  | cons a as ih =>
      intro hl
      simp only [mapExcept, hl a (List.mem_cons_self _ _), except_bind_ok,
        ih (fun b hb => hl b (List.mem_cons_of_mem _ hb)), except_pure, List.map_cons]

theorem firstWithKey_mem (all : List Entry) (k : String) (e : Entry)
    (h : firstWithKey all k = Except.ok e) : e ∈ all := by
  unfold firstWithKey at h
  cases hf : all.find? (fun x => x.key == k) with
  | none => rw [hf] at h; cases h
  | some x => rw [hf] at h; cases h; exact List.mem_of_find?_eq_some hf

/-! ### The comparator of line 348 is total and transitive -/

theorem ltChars_irrefl : ∀ (l : List Char), ltChars l l = false := by
  intro l
  induction l with
  | nil => rfl
  | cons a as ih => simp [ltChars, ih]

theorem ltChars_trans :
    ∀ (l1 l2 l3 : List Char), ltChars l1 l2 = true → ltChars l2 l3 = true →
      ltChars l1 l3 = true := by
  intro l1
  induction l1 with
  | nil =>
      intro l2 l3 h1 h2
      cases l2 with
      | nil => cases h1
      | cons b bs =>
          cases l3 with
          | nil => cases h2
          | cons c cs => rfl
  | cons a as ih =>
      intro l2 l3 h1 h2
      cases l2 with
      | nil => cases h1
      | cons b bs =>
          cases l3 with
          | nil => cases h2
          | cons c cs =>
              simp only [ltChars] at h1 h2 ⊢
              by_cases hab : a < b
              · simp only [hab, if_true] at h1
                by_cases hbc : b < c
                · simp [lt_trans hab hbc]
                · simp only [hbc, if_false] at h2
                  by_cases hcb : c < b
                  · simp [hcb] at h2
                  · have : b = c := le_antisymm (not_lt.mp hcb) (not_lt.mp hbc)
                    subst this
                    simp [hab]
              · simp only [hab, if_false] at h1
                by_cases hba : b < a
                · simp [hba] at h1
                · simp only [hba, if_false] at h1
                  have hab' : a = b := le_antisymm (not_lt.mp hba) (not_lt.mp hab)
                  subst hab'
                  by_cases hac : a < c
                  · simp [hac]
                  · simp only [hac, if_false] at h2 ⊢
                    by_cases hca : c < a
                    · simp [hca] at h2
                    · simp only [hca, if_false] at h2 ⊢
                      exact ih bs cs h1 h2

theorem ltChars_total_eq :
    ∀ (l1 l2 : List Char), ltChars l1 l2 = true ∨ ltChars l2 l1 = true ∨ l1 = l2 := by
  intro l1
  induction l1 with
  | nil =>
      intro l2
      cases l2 with
      | nil => exact Or.inr (Or.inr rfl)
      | cons b bs => exact Or.inl rfl
  | cons a as ih =>
      intro l2
      cases l2 with
      | nil => exact Or.inr (Or.inl rfl)
      | cons b bs =>
          rcases lt_trichotomy a b with hab | hab | hab
          · exact Or.inl (by simp [ltChars, hab])
          · subst hab
            rcases ih bs with h | h | h
            · exact Or.inl (by simp [ltChars, lt_irrefl, h])
            · exact Or.inr (Or.inl (by simp [ltChars, lt_irrefl, h]))
            · exact Or.inr (Or.inr (by rw [h]))
          · exact Or.inr (Or.inl (by simp [ltChars, hab]))

theorem strLtB_trans (a b c : String) (h1 : strLtB a b = true) (h2 : strLtB b c = true) :
    strLtB a c = true :=
  ltChars_trans a.data b.data c.data h1 h2

theorem strLtB_conn (a b : String) (h1 : strLtB a b = false) (h2 : strLtB b a = false) :
    a = b := by
  rcases ltChars_total_eq a.data b.data with h | h | h
  · rw [strLtB] at h1; rw [h1] at h; cases h
  · rw [strLtB] at h2; rw [h2] at h; cases h
  · exact congrArg String.mk h

theorem strLtB_irrefl (a : String) : strLtB a a = false :=
  ltChars_irrefl a.data

theorem sortLe_total (a b : Entry) : sortLe a b = true ∨ sortLe b a = true := by
  unfold sortLe strLeB
  by_cases ht : sortTitle a = sortTitle b
  · simp only [ht, beq_self_eq_true, if_true]
    by_cases he : a.etype = b.etype
    · simp only [he, beq_self_eq_true, if_true]
      rcases ltChars_total_eq a.key.data b.key.data with h | h | h
      · exact Or.inl (by simp [strLtB, h])
      · exact Or.inr (by simp [strLtB, h])
      · exact Or.inl (by
          have hk : a.key = b.key := congrArg String.mk h
          simp [hk])
    · have he' : (a.etype == b.etype) = false := beq_eq_false_iff_ne.mpr he
      have he'' : (b.etype == a.etype) = false := beq_eq_false_iff_ne.mpr (Ne.symm he)
      simp only [he', he'', if_false]
      rcases ltChars_total_eq a.etype.data b.etype.data with h | h | h
      · exact Or.inl h
      · exact Or.inr h
      · exact absurd (congrArg String.mk h) he
  · have ht' : (sortTitle a == sortTitle b) = false := beq_eq_false_iff_ne.mpr ht
    have ht'' : (sortTitle b == sortTitle a) = false := beq_eq_false_iff_ne.mpr (Ne.symm ht)
    simp only [ht', ht'', if_false]
    rcases ltChars_total_eq (sortTitle a).data (sortTitle b).data with h | h | h
    · exact Or.inl h
    · exact Or.inr h
    · exact absurd (congrArg String.mk h) ht

theorem sortLe_trans (a b c : Entry) (h1 : sortLe a b = true) (h2 : sortLe b c = true) :
    sortLe a c = true := by
  unfold sortLe strLeB at h1 h2 ⊢
  by_cases htab : sortTitle a = sortTitle b <;>
    by_cases htbc : sortTitle b = sortTitle c
  · have htac : sortTitle a = sortTitle c := htab.trans htbc
    simp only [htab, htbc, htac, beq_self_eq_true, if_true] at h1 h2 ⊢
    by_cases heab : a.etype = b.etype <;> by_cases hebc : b.etype = c.etype
    · have heac : a.etype = c.etype := heab.trans hebc
      simp only [heab, hebc, heac, beq_self_eq_true, if_true] at h1 h2 ⊢
      rcases Bool.or_eq_true_iff.mp h1 with h1' | h1' <;>
        rcases Bool.or_eq_true_iff.mp h2 with h2' | h2'
      · exact Bool.or_eq_true_iff.mpr (Or.inl (strLtB_trans _ _ _ h1' h2'))
      · have : b.key = c.key := eq_of_beq h2'
        exact Bool.or_eq_true_iff.mpr (Or.inl (this ▸ h1'))
      · have : a.key = b.key := eq_of_beq h1'
        exact Bool.or_eq_true_iff.mpr (Or.inl (this ▸ h2'))
      · have hab' : a.key = b.key := eq_of_beq h1'
        have hbc' : b.key = c.key := eq_of_beq h2'
        exact Bool.or_eq_true_iff.mpr (Or.inr (beq_iff_eq.mpr (hab'.trans hbc')))
    · have heac : (a.etype == c.etype) = false :=
        beq_eq_false_iff_ne.mpr (fun h => hebc (heab.symm.trans h))
      simp only [heab, beq_self_eq_true, if_true, beq_eq_false_iff_ne.mpr hebc, if_false,
        heac] at h1 h2 ⊢
      exact heab ▸ h2
    · have heac : (a.etype == c.etype) = false :=
        beq_eq_false_iff_ne.mpr (fun h => heab (h.trans hebc.symm))
      simp only [hebc, beq_self_eq_true, if_true, beq_eq_false_iff_ne.mpr heab, if_false,
        heac] at h1 h2 ⊢
      exact hebc ▸ h1
    · simp only [beq_eq_false_iff_ne.mpr heab, beq_eq_false_iff_ne.mpr hebc, if_false]
        at h1 h2
      by_cases heac : a.etype = c.etype
      · exfalso
        have h3 := strLtB_trans _ _ _ h1 h2
        rw [heac, strLtB_irrefl] at h3
        cases h3
      · simp only [beq_eq_false_iff_ne.mpr heac, if_false]
        exact strLtB_trans _ _ _ h1 h2
  · have htac : (sortTitle a == sortTitle c) = false :=
      beq_eq_false_iff_ne.mpr (fun h => htbc (htab.symm.trans h))
    simp only [htab, beq_self_eq_true, if_true, beq_eq_false_iff_ne.mpr htbc, if_false,
      htac] at h1 h2 ⊢
    exact htab ▸ h2
  · have htac : (sortTitle a == sortTitle c) = false :=
      beq_eq_false_iff_ne.mpr (fun h => htab (h.trans htbc.symm))
    simp only [htbc, beq_self_eq_true, if_true, beq_eq_false_iff_ne.mpr htab, if_false,
      htac] at h1 h2 ⊢
    exact htbc ▸ h1
  · simp only [beq_eq_false_iff_ne.mpr htab, beq_eq_false_iff_ne.mpr htbc, if_false]
      at h1 h2
    by_cases htac : sortTitle a = sortTitle c
    · exfalso
      have := ltChars_trans _ _ _ h1 h2
      rw [htac, ltChars_irrefl] at this
      cases this
    · simp only [beq_eq_false_iff_ne.mpr htac, if_false]
      exact strLtB_trans _ _ _ h1 h2

/-! ### Properties of the stable insertion sort -/

theorem insertSortedStable_perm (a : Entry) :
    ∀ l, List.Perm (insertSortedStable a l) (a :: l) := by
  intro l
  induction l with
  | nil => exact List.Perm.refl _
  | cons b bs ih =>
      by_cases h : sortLe b a = true
      · simp only [insertSortedStable, h, if_true]
        exact (ih.cons b).trans (List.Perm.swap a b bs)
      · simp only [insertSortedStable, h, if_false]
        exact List.Perm.refl _

theorem pySorted_foldl_perm :
    ∀ (l acc : List Entry),
      List.Perm (l.foldl (fun acc e => insertSortedStable e acc) acc) (l ++ acc) := by
  intro l
  induction l with
  | nil => intro acc; exact List.Perm.refl _
  | cons a as ih =>
      intro acc
      have h1 : (a :: as).foldl (fun acc e => insertSortedStable e acc) acc
          = as.foldl (fun acc e => insertSortedStable e acc) (insertSortedStable a acc) := by
        simp
      rw [h1]
      refine List.Perm.trans (ih (insertSortedStable a acc)) ?_
      refine List.Perm.trans (List.Perm.append_left as (insertSortedStable_perm a acc)) ?_
      simpa using (List.perm_middle : List.Perm (as ++ a :: acc) (a :: (as ++ acc)))

theorem pySorted_perm (l : List Entry) : List.Perm (pySorted l) l := by
  simpa using pySorted_foldl_perm l []

theorem insertSortedStable_pairwise (a : Entry) :
    ∀ (l : List Entry), List.Pairwise sortLeP l →
      List.Pairwise sortLeP (insertSortedStable a l) := by
  intro l
  induction l with
  | nil => intro _; simp [insertSortedStable, List.Pairwise.nil]
  | cons b bs ih =>
      intro hp
      rcases List.pairwise_cons.mp hp with ⟨hb, hbs⟩
      by_cases h : sortLe b a = true
      · simp only [insertSortedStable, h, if_true]
        refine List.pairwise_cons.mpr ⟨?_, ih hbs⟩
        intro c hc
        rcases List.mem_cons.mp ((insertSortedStable_perm a bs).mem_iff.mp hc) with hc | hc
        · subst hc; exact h
        · exact hb c hc
      · simp only [insertSortedStable, h, if_false]
        refine List.pairwise_cons.mpr ⟨?_, hp⟩
        intro c hc
        have hab : sortLe a b = true := (sortLe_total a b).resolve_right h
        rcases List.mem_cons.mp hc with hc | hc
        · subst hc; exact hab
        · exact sortLe_trans a b c hab (hb c hc)

theorem pySorted_foldl_pairwise :
    ∀ (l acc : List Entry), List.Pairwise sortLeP acc →
      List.Pairwise sortLeP (l.foldl (fun acc e => insertSortedStable e acc) acc) := by
  intro l
  induction l with
  | nil => intro acc h; exact h
  | cons a as ih =>
      intro acc h
      exact ih (insertSortedStable a acc) (insertSortedStable_pairwise a acc h)

theorem pySorted_pairwise (l : List Entry) : List.Pairwise sortLeP (pySorted l) :=
  pySorted_foldl_pairwise l [] List.Pairwise.nil

theorem insertSortedStable_append (a : Entry) :
    ∀ (l : List Entry), (∀ b ∈ l, sortLe b a = true) →
      insertSortedStable a l = l ++ [a] := by
  intro l
  induction l with
  | nil => intro _; rfl
  | cons b bs ih =>
      intro h
      simp only [insertSortedStable, h b (List.mem_cons_self _ _), if_true,
        List.cons_append, List.cons.injEq, true_and]
      exact ih (fun c hc => h c (List.mem_cons_of_mem _ hc))

theorem pySorted_foldl_sorted_eq :
    ∀ (l acc : List Entry), List.Pairwise sortLeP (acc ++ l) →
      l.foldl (fun acc e => insertSortedStable e acc) acc = acc ++ l := by
  intro l
  induction l with
  | nil => intro acc _; simp
  | cons a as ih =>
      intro acc h
      have hsplit := List.pairwise_append.mp h
      have hins : insertSortedStable a acc = acc ++ [a] :=
        insertSortedStable_append a acc
          (fun b hb => hsplit.2.2 b hb a (List.mem_cons_self _ _))
      have hre : acc ++ a :: as = (acc ++ [a]) ++ as := by simp
      calc (a :: as).foldl (fun acc e => insertSortedStable e acc) acc
          = as.foldl (fun acc e => insertSortedStable e acc) (acc ++ [a]) := by
            simp [hins]
        _ = (acc ++ [a]) ++ as := ih (acc ++ [a]) (by rw [← hre]; exact h)
        _ = acc ++ a :: as := by simp

theorem pySorted_of_sorted (l : List Entry) (h : List.Pairwise sortLeP l) :
    pySorted l = l := by
  simpa using pySorted_foldl_sorted_eq l [] (by simpa using h)

/-! ### Serialization shape -/

theorem string_foldl_append :
    ∀ (xs : List String) (s : String),
      xs.foldl (fun a b => a ++ b) s = s ++ xs.foldl (fun a b => a ++ b) "" := by
  intro xs
  induction xs with
  | nil => intro s; simp
  | cons x xs ih =>
      intro s
      simp only [List.foldl_cons]
      rw [ih (s ++ x), ih ("" ++ x)]
      simp [String.append_assoc]

theorem string_join_cons (x : String) (xs : List String) :
    String.join (x :: xs) = x ++ String.join xs := by
  simp only [String.join, List.foldl_cons]
  rw [string_foldl_append xs ("" ++ x)]
  simp

theorem serializeEntries_foldl :
    ∀ (l : List Entry) (s : String),
      l.foldl (fun s e => s ++ e.raw ++ "\n\n") s =
        s ++ String.join (l.map (fun e => e.raw ++ "\n\n")) := by
  intro l
  induction l with
  | nil => intro s; simp [String.join]
  | cons a as ih =>
      intro s
      simp only [List.foldl_cons, List.map_cons, string_join_cons, ih]
      simp [String.append_assoc]

theorem serializeEntries_join (l : List Entry) :
    serializeEntries l = String.join (l.map (fun e => e.raw ++ "\n\n")) := by
  simpa using serializeEntries_foldl l ""

/-! ### The merge loop only stores records of the store -/

theorem addMerged_merged (st : MergeState) (k : String) (v : Entry) :
    (addMerged st k v).merged = st.merged ∨
      (addMerged st k v).merged = st.merged ++ [(k, v)] := by
  unfold addMerged
  by_cases h : (assocFindOpt st.merged k).isSome
  · rw [if_pos h]; exact Or.inl rfl
  · rw [if_neg h]; exact Or.inr rfl

theorem addMerged_mem_inv (st : MergeState) (k : String) (v : Entry) (Q : Entry → Prop)
    (hP : ∀ p ∈ st.merged, Q p.2) (hv : Q v) :
    ∀ p ∈ (addMerged st k v).merged, Q p.2 := by
  rcases addMerged_merged st k v with h | h <;> rw [h]
  · exact hP
  · intro p hp
    rcases List.mem_append.mp hp with hp | hp
    · exact hP p hp
    · rcases List.mem_singleton.mp hp with rfl
      exact hv

theorem collectTitleGroup_snd (all : List Entry) (ttks : List (List (String × List String)))
    (t ty : String) (e0 : Entry) (r : List String × Entry)
    (h : collectTitleGroup all ttks t ty e0 = Except.ok r) : r.2 = e0 ∨ r.2 ∈ all := by
  simp only [collectTitleGroup] at h
  cases hm : mapExcept (firstWithKey all)
      (ttks.flatMap (fun ttk => (assocFindOpt ttk t).getD [])) with
  | error e => rw [hm, except_bind_error] at h; cases h
  | ok ecs =>
      rw [hm, except_bind_ok, except_pure] at h
      cases h
      rcases lastD_mem ecs e0 with hl | hl
      · exact Or.inl hl
      · exact Or.inr (mapExcept_mem (firstWithKey all) (· ∈ all)
          (fun k e he => firstWithKey_mem all k e he) _ ecs hm _ hl)

theorem mergeStep_merged_mem (mode : Mode) (all : List Entry)
    (ttks : List (List (String × List String))) (st : MergeState) (e : Entry)
    (st' : MergeState) (he : e ∈ all) (hP : ∀ p ∈ st.merged, p.2 ∈ all)
    (h : mergeStep mode all ttks st e = Except.ok st') :
    ∀ p ∈ st'.merged, p.2 ∈ all := by
  unfold mergeStep at h
  split at h
  · rw [except_pure] at h; cases h
    exact addMerged_mem_inv st e.key e _ hP he
  · rename_i t hnt
    split at h
    · rename_i kc hkc
      rw [except_pure] at h; cases h
      exact addMerged_mem_inv st kc e _ hP he
    · cases hc : collectTitleGroup all ttks t e.etype e with
      | error err => rw [hc, except_bind_error] at h; cases h
      | ok r =>
          rw [hc, except_bind_ok] at h
          have hr2 : r.2 = e ∨ r.2 ∈ all := collectTitleGroup_snd all ttks t e.etype e r hc
          have hr2' : r.2 ∈ all := by
            rcases hr2 with h' | h'
            · rw [h']; exact he
            · exact h'
          split at h
          · split at h
            · cases hew : mapExcept (firstWithKey all) r.1 with
              | error err => rw [hew, except_bind_error] at h; cases h
              | ok ews =>
                  rw [hew, except_bind_ok] at h
                  cases hch : choose_entry_from_smallest_index ews with
                  | error err => rw [hch, except_bind_error] at h; cases h
                  | ok chosen =>
                      rw [hch, except_bind_ok, except_pure] at h
                      cases h
                      exact addMerged_mem_inv st chosen.key r.2 _ hP hr2'
            · split at h
              · cases h
              · split at h
                · rw [except_pure] at h; cases h
                  exact addMerged_mem_inv ⟨st.merged, _, _⟩ _ r.2 _ hP hr2'
                · cases h
          · rw [except_pure] at h; cases h
            exact addMerged_mem_inv st e.key r.2 _ hP hr2'

/-! ### Duplicate-free grouping structure and prompt caching -/

theorem contains_true {α : Type} [BEq α] [LawfulBEq α] (l : List α) (a : α) :
    l.contains a = true ↔ a ∈ l := by
  rw [List.contains]
  exact List.elem_iff

theorem mem_insertDedup {α : Type} [BEq α] [LawfulBEq α] (l : List α) (x a : α) :
    a ∈ insertDedup l x ↔ a ∈ l ∨ a = x := by
  unfold insertDedup
  by_cases h : l.contains x = true
  · rw [if_pos h]
    exact ⟨Or.inl, fun hc => hc.elim id (fun hax => hax ▸ (contains_true l x).mp h)⟩
  · rw [if_neg h]
    simp

theorem insertDedup_nodup {α : Type} [BEq α] [LawfulBEq α] (l : List α) (x : α)
    (h : l.Nodup) : (insertDedup l x).Nodup := by
  unfold insertDedup
  by_cases hc : l.contains x = true
  · rw [if_pos hc]; exact h
  · rw [if_neg hc]
    have : x ∉ l := fun hx => hc ((contains_true l x).mpr hx)
    simp [List.nodup_append, h, this]

theorem foldl_insertDedup_mem {α : Type} [BEq α] [LawfulBEq α] :
    ∀ (l acc : List α) (a : α), a ∈ l.foldl insertDedup acc ↔ a ∈ acc ∨ a ∈ l := by
  intro l
  induction l with
  | nil => intro acc a; simp
  | cons b bs ih =>
      intro acc a
      rw [List.foldl_cons, ih (insertDedup acc b) a, mem_insertDedup]
      constructor
      · rintro ((h | rfl) | h)
        · exact Or.inl h
        · exact Or.inr (List.mem_cons_self _ _)
        · exact Or.inr (List.mem_cons_of_mem _ h)
      · rintro (h | h)
        · exact Or.inl (Or.inl h)
        · rcases List.mem_cons.mp h with rfl | h
          · exact Or.inl (Or.inr rfl)
          · exact Or.inr h

theorem mem_dedupList {α : Type} [BEq α] [LawfulBEq α] (l : List α) (a : α) :
    a ∈ dedupList l ↔ a ∈ l := by
  unfold dedupList
  rw [foldl_insertDedup_mem]
  simp

theorem foldl_insertDedup_nodup {α : Type} [BEq α] [LawfulBEq α] :
    ∀ (l acc : List α), acc.Nodup → (l.foldl insertDedup acc).Nodup := by
  intro l
  induction l with
  | nil => intro acc h; exact h
  | cons b bs ih => intro acc h; exact ih _ (insertDedup_nodup acc b h)

theorem dedupList_nodup {α : Type} [BEq α] [LawfulBEq α] (l : List α) :
    (dedupList l).Nodup :=
  foldl_insertDedup_nodup l [] List.Pairwise.nil

theorem groupPairsBy_keys (f : Entry → String) (l : List (Nat × Entry)) :
    (groupPairsBy f l).map (·.1) = dedupList (l.map (fun p => f p.2)) := by
  unfold groupPairsBy
  rw [List.map_map]
  exact List.map_id _

theorem nodup_flatMap_pairs {α β : Type} (outs : List (β × α)) (inner : β × α → List β)
    (houts : (outs.map (·.1)).Nodup) (hnd : ∀ o ∈ outs, (inner o).Nodup) :
    (outs.flatMap (fun o => (inner o).map (fun s => (o.1, s)))).Nodup := by
  induction outs with
  | nil => simp
  | cons o os ih =>
      rw [List.flatMap_cons, List.nodup_append]
      have houts' : (o.1 :: os.map (·.1)).Nodup := by simpa using houts
      rcases List.pairwise_cons.mp houts' with ⟨hhead, htail⟩
      refine ⟨?_, ?_, ?_⟩
      · refine (hnd o (List.mem_cons_self _ _)).map ?_
        intro a b hab
        injection hab with h1 h2
      · exact ih htail (fun o' ho' => hnd o' (List.mem_cons_of_mem _ ho'))
      · intro x hx hy
        rcases List.mem_map.mp hx with ⟨s, _, rfl⟩
        rcases List.mem_flatMap.mp hy with ⟨o', ho', hxo'⟩
        rcases List.mem_map.mp hxo' with ⟨s', _, heq⟩
        have h1 : o'.1 = o.1 := congrArg (fun p : β × β => p.1) heq
        exact hhead o'.1 (List.mem_map.mpr ⟨o', ho', rfl⟩) h1.symm

theorem passBGroups_labels_nodup (all : List Entry) :
    ((passBGroups all).map (·.1)).Nodup := by
  unfold passBGroups
  rw [List.map_flatMap]
  have hre : (fun kg : String × List (Nat × Entry) =>
        ((groupPairsBy (·.etype) kg.2).map (fun tg => ((kg.1, tg.1), tg.2))).map (·.1)) =
      (fun kg : String × List (Nat × Entry) =>
        (((groupPairsBy (·.etype) kg.2).map (·.1)).map (fun s => (kg.1, s)))) := by
    funext kg
    rw [List.map_map, List.map_map]
    rfl
  rw [hre]
  refine nodup_flatMap_pairs (groupPairsBy (·.key) all.enum)
    (fun kg => (groupPairsBy (·.etype) kg.2).map (·.1)) ?_ ?_
  · rw [groupPairsBy_keys]
    exact dedupList_nodup _
  · intro o _
    show ((groupPairsBy (·.etype) o.2).map (·.1)).Nodup
    rw [groupPairsBy_keys]
    exact dedupList_nodup _

theorem passBStep_log (mode : Mode) (st : PassBResult)
    (grp : (String × String) × List (Nat × Entry)) (st' : PassBResult)
    (h : passBStep mode st grp = Except.ok st') :
    st'.log = st.log ∨ st'.log = st.log ++ [grp.1] := by
  simp only [passBStep] at h
  split at h
  · split at h
    · cases hch : choose_entry_from_smallest_index (grp.2.map (·.2)) with
      | error err => rw [hch, except_bind_error] at h; cases h
      | ok chosen =>
          rw [hch, except_bind_ok, except_pure] at h
          cases h
          exact Or.inl rfl
    · split at h
      · rw [except_pure] at h; cases h; exact Or.inl rfl
      · split at h
        · cases h
        · rw [except_pure] at h; cases h; exact Or.inr rfl
        · split at h
          · rw [except_pure] at h; cases h; exact Or.inr rfl
          · cases h
  · rw [except_pure] at h; cases h
    exact Or.inl rfl

theorem passB_fold_log_nodup (mode : Mode) :
    ∀ (groups : List ((String × String) × List (Nat × Entry))) (st st' : PassBResult),
      (st.log ++ groups.map (·.1)).Nodup →
      groups.foldlM (passBStep mode) st = Except.ok st' → st'.log.Nodup := by
  intro groups
  induction groups with
  | nil =>
      intro st st' hnd h
      simp only [List.foldlM_nil, except_pure] at h
      cases h
      simpa using hnd
  | cons grp rest ih =>
      intro st st' hnd h
      rw [List.foldlM_cons] at h
      cases hstep : passBStep mode st grp with
      | error err => rw [hstep, except_bind_error] at h; cases h
      | ok t =>
          rw [hstep, except_bind_ok] at h
          rcases passBStep_log mode st grp t hstep with hl | hl
          · refine ih t st' ?_ h
            rw [hl]
            refine hnd.sublist ?_
            refine List.Sublist.append_left ?_ st.log
            simpa using List.sublist_cons_self grp.1 (rest.map (·.1))
          · refine ih t st' ?_ h
            rw [hl]
            simpa using hnd

theorem passB_log_nodup (mode : Mode) (all : List Entry) (pb : PassBResult)
    (h : check_same_key_different_titles mode all = Except.ok pb) : pb.log.Nodup := by
  unfold check_same_key_different_titles at h
  refine passB_fold_log_nodup mode (passBGroups all) ⟨false, [], [], []⟩ pb ?_ h
  simpa using passBGroups_labels_nodup all

theorem addMerged_tcache (st : MergeState) (k : String) (v : Entry) :
    (addMerged st k v).tcache = st.tcache ∧ (addMerged st k v).tlog = st.tlog := by
  unfold addMerged
  by_cases h : (assocFindOpt st.merged k).isSome
  · rw [if_pos h]; exact ⟨rfl, rfl⟩
  · rw [if_neg h]; exact ⟨rfl, rfl⟩

theorem assocFindOpt_append_isSome {α β : Type} [BEq α] (m : List (α × β)) (y : α × β)
    (x : α) (h : (assocFindOpt m x).isSome = true) :
    (assocFindOpt (m ++ [y]) x).isSome = true := by
  unfold assocFindOpt at h ⊢
  rw [List.find?_append]
  cases hf : m.find? (fun p => p.1 == x) with
  | none => rw [hf] at h; cases h
  | some p => simp [hf, Option.or]

theorem assocFindOpt_append_self {α β : Type} [BEq α] [LawfulBEq α] (m : List (α × β))
    (x : α) (v : β) (h : assocFindOpt m x = none) :
    (assocFindOpt (m ++ [(x, v)]) x).isSome = true := by
  unfold assocFindOpt at h ⊢
  rw [List.find?_append]
  cases hf : m.find? (fun p => p.1 == x) with
  | some p => rw [hf] at h; cases h
  | none => simp [Option.or, List.find?]

/-- Invariant of the merge loop's title-conflict cache: the prompt log has no
repeated `(type, title)` and every logged conflict key has a cached chosen
key. -/
def TlogInv (st : MergeState) : Prop :=
  st.tlog.Nodup ∧ ∀ x ∈ st.tlog, (assocFindOpt st.tcache x).isSome = true

theorem addMerged_tloginv (st : MergeState) (k : String) (v : Entry)
    (h : TlogInv st) : TlogInv (addMerged st k v) := by
  rcases addMerged_tcache st k v with ⟨h1, h2⟩
  exact ⟨h2 ▸ h.1, fun x hx => h1 ▸ h.2 x (h2 ▸ hx)⟩

theorem mergeStep_tloginv (mode : Mode) (all : List Entry)
    (ttks : List (List (String × List String))) (st : MergeState) (e : Entry)
    (st' : MergeState) (hP : TlogInv st)
    (h : mergeStep mode all ttks st e = Except.ok st') : TlogInv st' := by
  unfold mergeStep at h
  split at h
  · rw [except_pure] at h; cases h
    exact addMerged_tloginv st e.key e hP
  · rename_i t hnt
    split at h
    · rename_i kc hkc
      rw [except_pure] at h; cases h
      exact addMerged_tloginv st kc e hP
    · rename_i hnone
      cases hc : collectTitleGroup all ttks t e.etype e with
      | error err => rw [hc, except_bind_error] at h; cases h
      | ok r =>
          rw [hc, except_bind_ok] at h
          split at h
          · split at h
            · cases hew : mapExcept (firstWithKey all) r.1 with
              | error err => rw [hew, except_bind_error] at h; cases h
              | ok ews =>
                  rw [hew, except_bind_ok] at h
                  cases hch : choose_entry_from_smallest_index ews with
                  | error err => rw [hch, except_bind_error] at h; cases h
                  | ok chosen =>
                      rw [hch, except_bind_ok, except_pure] at h
                      cases h
                      exact addMerged_tloginv st chosen.key r.2 hP
            · split at h
              · cases h
              · split at h
                · rw [except_pure] at h; cases h
                  refine addMerged_tloginv _ _ _ ?_
                  have hnotin : (e.etype, t) ∉ st.tlog := by
                    intro hx
                    have := hP.2 _ hx
                    rw [hnone] at this
                    cases this
                  refine ⟨by simp [List.nodup_append, hP.1, hnotin], ?_⟩
                  intro x hx
                  rcases List.mem_append.mp hx with hx | hx
                  · exact assocFindOpt_append_isSome st.tcache _ x (hP.2 x hx)
                  · rcases List.mem_singleton.mp hx with rfl
                    exact assocFindOpt_append_self st.tcache _ _ hnone
                · cases h
          · rw [except_pure] at h; cases h
            exact addMerged_tloginv st e.key r.2 hP

/-! ### Collision-free runs: characterization of every pipeline stage -/

theorem assocFindOpt_pairing {β : Type} (xs : List String) (g : String → β) (t : String) :
    assocFindOpt (xs.map (fun k => (k, g k))) t = if t ∈ xs then some (g t) else none := by
  induction xs with
  | nil => simp [assocFindOpt]
  | cons x xs ih =>
      by_cases hx : x = t
      · subst hx
        simp [assocFindOpt, List.find?_cons]
      · have hx' : ((x, g x).1 == t) = false := beq_eq_false_iff_ne.mpr hx
        simp only [List.map_cons, assocFindOpt, List.find?_cons, hx', List.mem_cons]
        simp only [assocFindOpt] at ih
        rw [ih]
        simp [Ne.symm hx]

theorem titlesToKeys_lookup (file : List Entry) (t : String) :
    (assocFindOpt (titlesToKeys file) t).getD [] =
      (file.filter (fun e => normTitle e == some t)).map (·.key) := by
  unfold titlesToKeys
  rw [assocFindOpt_pairing]
  by_cases ht : t ∈ dedupList (file.filterMap normTitle)
  · rw [if_pos ht]; rfl
  · rw [if_neg ht]
    have ht' : t ∉ file.filterMap normTitle := fun h => ht ((mem_dedupList _ _).mpr h)
    have hnil : file.filter (fun e => normTitle e == some t) = [] := by
      rw [List.filter_eq_nil_iff]
      intro e he hbe
      exact ht' (List.mem_filterMap.mpr ⟨e, he, eq_of_beq hbe⟩)
    rw [hnil]; rfl

theorem collect_ks (files : List (List Entry)) (t : String) :
    (files.map titlesToKeys).flatMap (fun ttk => (assocFindOpt ttk t).getD []) =
      (files.flatten.filter (fun e => normTitle e == some t)).map (·.key) := by
  induction files with
  | nil => rfl
  | cons f fs ih =>
      simp only [List.map_cons, List.flatMap_cons, List.flatten_cons, List.filter_append,
        List.map_append, titlesToKeys_lookup, ih]

theorem find_key_unique (e : Entry) :
    ∀ (all : List Entry), (all.map (·.key)).Nodup → e ∈ all →
      all.find? (fun x => x.key == e.key) = some e := by
  intro all
  induction all with
  | nil => intro _ he; cases he
  | cons a as ih =>
      intro hnd he
      have hnd' : (a.key :: as.map (·.key)).Nodup := by simpa using hnd
      rcases List.pairwise_cons.mp hnd' with ⟨hhead, htail⟩
      rcases List.mem_cons.mp he with rfl | he'
      · simp [List.find?_cons]
      · have hne : (a.key == e.key) = false := by
          refine beq_eq_false_iff_ne.mpr ?_
          intro hk
          exact hhead e.key (List.mem_map.mpr ⟨e, he', rfl⟩) hk
        rw [List.find?_cons]
        simp only [hne]
        exact ih htail he'

theorem firstWithKey_unique (all : List Entry) (h : (all.map (·.key)).Nodup) (e : Entry)
    (he : e ∈ all) : firstWithKey all e.key = Except.ok e := by
  unfold firstWithKey
  rw [find_key_unique e all h he]

theorem find_key_bib_unique (e : Entry) :
    ∀ (all : List Entry), (all.map (·.key)).Nodup →
      (∀ x ∈ all, endsWithStr x.source ".bib" = true) → e ∈ all →
      all.find? (fun x => x.key == e.key && endsWithStr x.source ".bib") = some e := by
  intro all
  induction all with
  | nil => intro _ _ he; cases he
  | cons a as ih =>
      intro hnd hbib he
      have hnd' : (a.key :: as.map (·.key)).Nodup := by simpa using hnd
      rcases List.pairwise_cons.mp hnd' with ⟨hhead, htail⟩
      rcases List.mem_cons.mp he with rfl | he'
      · rw [List.find?_cons]
        have hb := hbib _ (List.mem_cons_self _ _)
        simp [hb]
      · have hne : (a.key == e.key) = false := by
          refine beq_eq_false_iff_ne.mpr ?_
          intro hk
          exact hhead e.key (List.mem_map.mpr ⟨e, he', rfl⟩) hk
        rw [List.find?_cons]
        simp only [hne, Bool.false_and]
        exact ih htail (fun x hx => hbib x (List.mem_cons_of_mem _ hx)) he'

theorem firstWithKeyBib_unique (all : List Entry) (h : (all.map (·.key)).Nodup)
    (hbib : ∀ x ∈ all, endsWithStr x.source ".bib" = true) (e : Entry) (he : e ∈ all) :
    firstWithKeyBib all e.key = Except.ok e := by
  unfold firstWithKeyBib
  rw [find_key_bib_unique e all h hbib he]

theorem mapExcept_map {α β γ : Type} (f : β → Except PyErr γ) (g : α → β) :
    ∀ (l : List α), mapExcept f (l.map g) = mapExcept (fun a => f (g a)) l := by
  intro l
  induction l with
  | nil => rfl
  | cons a as ih => simp only [List.map_cons, mapExcept, ih]

theorem allKeys_fold_single (ty c : String) :
    ∀ (l : List Entry) (acc : List String),
      (∀ s ∈ l, s.etype = ty → s.key = c) →
      (acc = [] ∨ acc = [c]) →
      ((∃ s ∈ l, s.etype = ty) ∨ acc = [c]) →
      l.foldl (fun acc s => if s.etype == ty then insertDedup acc s.key else acc) acc
        = [c] := by
  intro l
  induction l with
  | nil =>
      intro acc h1 h2 h3
      rcases h3 with ⟨s, hs, _⟩ | h3
      · cases hs
      · simpa using h3
  | cons s ss ih =>
      intro acc h1 h2 h3
      rw [List.foldl_cons]
      by_cases hty : s.etype = ty
      · have hk : s.key = c := h1 s (List.mem_cons_self _ _) hty
        have hacc : insertDedup acc s.key = [c] := by
          rcases h2 with rfl | rfl
          · rw [hk]; simp [insertDedup]
          · rw [hk]; simp [insertDedup, List.contains]
        rw [if_pos (by simp [hty]), hacc]
        exact ih [c] (fun x hx => h1 x (List.mem_cons_of_mem _ hx)) (Or.inr rfl)
          (Or.inr rfl)
      · rw [if_neg (by simp [hty])]
        refine ih acc (fun x hx => h1 x (List.mem_cons_of_mem _ hx)) h2 ?_
        rcases h3 with ⟨x, hx, hxty⟩ | h3
        · rcases List.mem_cons.mp hx with rfl | hx'
          · exact absurd hxty hty
          · exact Or.inl ⟨x, hx', hxty⟩
        · exact Or.inr h3

theorem collect_spec (files : List (List Entry)) (H1 : keysNodup files)
    (H2 : typeTitleNodup files) (e : Entry) (he : e ∈ files.flatten) (t : String)
    (ht : normTitle e = some t) :
    collectTitleGroup files.flatten (files.map titlesToKeys) t e.etype e =
      Except.ok ([e.key],
        lastD (files.flatten.filter (fun x => normTitle x == some t)) e) := by
  have hS : ∀ s ∈ files.flatten.filter (fun x => normTitle x == some t),
      s ∈ files.flatten ∧ normTitle s = some t := by
    intro s hs
    exact ⟨(List.mem_filter.mp hs).1, eq_of_beq (List.mem_filter.mp hs).2⟩
  have heS : e ∈ files.flatten.filter (fun x => normTitle x == some t) :=
    List.mem_filter.mpr ⟨he, by simp [ht]⟩
  simp only [collectTitleGroup]
  rw [collect_ks]
  rw [mapExcept_map]
  have hmE : mapExcept (fun s : Entry => firstWithKey files.flatten s.key)
      (files.flatten.filter (fun x => normTitle x == some t)) =
      Except.ok ((files.flatten.filter (fun x => normTitle x == some t)).map id) := by
    refine mapExcept_of_forall _ _ _ ?_
    intro s hs
    exact firstWithKey_unique files.flatten H1 s (hS s hs).1
  rw [List.map_id] at hmE
  rw [hmE, except_bind_ok]
  have hzip : ((files.flatten.filter (fun x => normTitle x == some t)).map (·.key)).zip
      (files.flatten.filter (fun x => normTitle x == some t)) =
      (files.flatten.filter (fun x => normTitle x == some t)).map
        (fun s => (s.key, s)) := by
    have := List.zip_map' (fun x : Entry => x.key) id
      (files.flatten.filter (fun x => normTitle x == some t))
    simpa using this
  rw [hzip, List.foldl_map]
  have hfold : (files.flatten.filter (fun x => normTitle x == some t)).foldl
      (fun acc s => if (s.key, s).2.etype == e.etype
        then insertDedup acc (s.key, s).1 else acc) [] = [e.key] := by
    refine allKeys_fold_single e.etype e.key _ [] ?_ (Or.inl rfl) (Or.inl ⟨e, heS, rfl⟩)
    intro s hs hsty
    have h2 := H2 s (hS s hs).1 e he hsty (by rw [(hS s hs).2, ht]) (by rw [(hS s hs).2]; simp)
    rw [h2]
  rw [hfold]
  rfl

theorem filter_length_le_one {α : Type} (f : α → String) (k : String) :
    ∀ (l : List α), (l.map f).Nodup → (l.filter (fun a => f a == k)).length ≤ 1 := by
  intro l
  induction l with
  | nil => intro _; simp
  | cons a as ih =>
      intro hnd
      have hnd' : (f a :: as.map f).Nodup := by simpa using hnd
      rcases List.pairwise_cons.mp hnd' with ⟨hhead, htail⟩
      by_cases ha : (f a == k) = true
      · have hnil : as.filter (fun x => f x == k) = [] := by
          rw [List.filter_eq_nil_iff]
          intro x hx hxk
          exact hhead (f x) (List.mem_map.mpr ⟨x, hx, rfl⟩)
            ((eq_of_beq ha).trans (eq_of_beq hxk).symm)
        rw [List.filter_cons]
        simp [ha, hnil]
      · have ha' : (f a == k) = false := by simpa using ha
        rw [List.filter_cons]
        simp only [ha', Bool.false_eq_true, if_false]
        exact ih htail

theorem mem_groupPairsBy (f : Entry → String) (l : List (Nat × Entry)) (k : String)
    (g : List (Nat × Entry)) (h : (k, g) ∈ groupPairsBy f l) :
    g = l.filter (fun p => f p.2 == k) := by
  unfold groupPairsBy at h
  rcases List.mem_map.mp h with ⟨k', _, heq⟩
  injection heq with h1 h2
  subst h1
  exact h2.symm

theorem enumFrom_map_snd_comp {α β : Type} (f : α → β) :
    ∀ (l : List α) (n : Nat), (List.enumFrom n l).map (fun p => f p.2) = l.map f := by
  intro l
  induction l with
  | nil => intro n; rfl
  | cons a as ih => intro n; simp [List.enumFrom, ih]

theorem passBGroups_small (all : List Entry) (H : (all.map (·.key)).Nodup) :
    ∀ g ∈ passBGroups all, g.2.length ≤ 1 := by
  intro g hg
  unfold passBGroups at hg
  rcases List.mem_flatMap.mp hg with ⟨kg, hkg, hgin⟩
  rcases List.mem_map.mp hgin with ⟨tg, htg, rfl⟩
  have h1 : kg.2 = all.enum.filter (fun p => p.2.key == kg.1) :=
    mem_groupPairsBy _ _ kg.1 kg.2 hkg
  have hlen : kg.2.length ≤ 1 := by
    rw [h1]
    refine filter_length_le_one (fun p => p.2.key) kg.1 all.enum ?_
    rw [show all.enum.map (fun p : Nat × Entry => p.2.key) = all.map (·.key) from
      enumFrom_map_snd_comp (·.key) all 0]
    exact H
  have h2 : tg.2 = kg.2.filter (fun p => p.2.etype == tg.1) :=
    mem_groupPairsBy _ _ tg.1 tg.2 htg
  calc ((kg.1, tg.1), tg.2).2.length = tg.2.length := rfl
    _ ≤ kg.2.length := by rw [h2]; exact List.length_filter_le _ _
    _ ≤ 1 := hlen

theorem passBStep_pure (mode : Mode) (st : PassBResult)
    (grp : (String × String) × List (Nat × Entry)) (h : grp.2.length ≤ 1) :
    passBStep mode st grp = Except.ok st := by
  obtain ⟨lab, members⟩ := grp
  simp only [passBStep]
  rw [if_neg]
  · rfl
  · simp only at h
    rcases members with _ | ⟨p, _ | ⟨q, rest⟩⟩
    · simp [dedupList]
    · simp [dedupList, insertDedup]
    · simp at h

theorem foldlM_const_steps {σ α : Type} (f : σ → α → Except PyErr σ) :
    ∀ (l : List α) (st : σ), (∀ a ∈ l, ∀ s, f s a = Except.ok s) →
      l.foldlM f st = Except.ok st := by
  intro l
  induction l with
  | nil => intro st _; rfl
  | cons a as ih =>
      intro st hstep
      rw [List.foldlM_cons, hstep a (List.mem_cons_self _ _) st, except_bind_ok]
      exact ih st (fun b hb s => hstep b (List.mem_cons_of_mem _ hb) s)

theorem passB_trivial (mode : Mode) (all : List Entry)
    (H : (all.map (·.key)).Nodup) :
    check_same_key_different_titles mode all = Except.ok ⟨false, [], [], []⟩ := by
  unfold check_same_key_different_titles
  exact foldlM_const_steps _ (passBGroups all) _
    (fun g hg s => passBStep_pure mode s g (passBGroups_small all H g hg))

theorem titlesToKeys_keys (file : List Entry) :
    (titlesToKeys file).map (·.1) = dedupList (file.filterMap normTitle) := by
  unfold titlesToKeys
  rw [List.map_map]
  exact List.map_id _

theorem titlesToKeys_pairs_mem (f : List Entry) (k t : String)
    (h : (k, t) ∈ (titlesToKeys f).flatMap (fun p => p.2.map (fun k => (k, p.1)))) :
    ∃ rec ∈ f, rec.key = k ∧ normTitle rec = some t := by
  rcases List.mem_flatMap.mp h with ⟨⟨t', ks⟩, hp, hk⟩
  rcases List.mem_map.mp hk with ⟨k', hk', heq⟩
  injection heq with h1 h2
  subst h1
  subst h2
  unfold titlesToKeys at hp
  rcases List.mem_map.mp hp with ⟨t'', _, heq2⟩
  injection heq2 with h3 h4
  subst h3
  rw [← h4] at hk'
  rcases List.mem_map.mp hk' with ⟨rec, hrec, rfl⟩
  exact ⟨rec, (List.mem_filter.mp hrec).1, rfl, eq_of_beq (List.mem_filter.mp hrec).2⟩

theorem file_keys_nodup (files : List (List Entry)) (H1 : keysNodup files)
    (f : List Entry) (hf : f ∈ files) : (f.map (·.key)).Nodup :=
  H1.sublist ((List.sublist_flatten_of_mem hf).map (·.key))

theorem nodup_flatMap_pairs_snd {α β : Type} (outs : List (β × α))
    (inner : β × α → List β) (houts : (outs.map (·.1)).Nodup)
    (hnd : ∀ o ∈ outs, (inner o).Nodup) :
    (outs.flatMap (fun o => (inner o).map (fun s => (s, o.1)))).Nodup := by
  induction outs with
  | nil => simp
  | cons o os ih =>
      rw [List.flatMap_cons, List.nodup_append]
      have houts' : (o.1 :: os.map (·.1)).Nodup := by simpa using houts
      rcases List.pairwise_cons.mp houts' with ⟨hhead, htail⟩
      refine ⟨?_, ?_, ?_⟩
      · refine (hnd o (List.mem_cons_self _ _)).map ?_
        intro a b hab
        injection hab with h1 h2
      · exact ih htail (fun o' ho' => hnd o' (List.mem_cons_of_mem _ ho'))
      · intro x hx hy
        rcases List.mem_map.mp hx with ⟨s, _, rfl⟩
        rcases List.mem_flatMap.mp hy with ⟨o', ho', hxo'⟩
        rcases List.mem_map.mp hxo' with ⟨s', _, heq⟩
        have h1 : o'.1 = o.1 := congrArg (fun p : β × β => p.2) heq
        exact hhead o'.1 (List.mem_map.mpr ⟨o', ho', rfl⟩) h1.symm

theorem titlesToKeys_pairs_nodup (files : List (List Entry)) (H1 : keysNodup files)
    (f : List Entry) (hf : f ∈ files) :
    ((titlesToKeys f).flatMap (fun p => p.2.map (fun k => (k, p.1)))).Nodup := by
  refine nodup_flatMap_pairs_snd (titlesToKeys f) (·.2) ?_ ?_
  · rw [titlesToKeys_keys]
    exact dedupList_nodup _
  · intro o ho
    unfold titlesToKeys at ho
    rcases List.mem_map.mp ho with ⟨t, _, rfl⟩
    show (((f.filter (fun e => normTitle e == some t)).map (·.key)).Nodup)
    refine (file_keys_nodup files H1 f hf).sublist ?_
    exact (List.filter_sublist f).map (·.key)

theorem filter_pairwise_eq_le_one {α : Type} (p : α → Bool) :
    ∀ (l : List α), l.Nodup → (∀ a ∈ l, ∀ b ∈ l, p a = true → p b = true → a = b) →
      (l.filter p).length ≤ 1 := by
  intro l
  induction l with
  | nil => intro _ _; simp
  | cons a as ih =>
      intro hnd heq
      rcases List.pairwise_cons.mp hnd with ⟨hhead, htail⟩
      by_cases ha : p a = true
      · have hnil : as.filter p = [] := by
          rw [List.filter_eq_nil_iff]
          intro x hx hpx
          exact hhead x hx (heq a (List.mem_cons_self _ _) x (List.mem_cons_of_mem _ hx)
            ha hpx)
        rw [List.filter_cons]
        simp [ha, hnil]
      · have ha' : p a = false := by simpa using ha
        rw [List.filter_cons]
        simp only [ha', Bool.false_eq_true, if_false]
        exact ih htail
          (fun x hx y hy => heq x (List.mem_cons_of_mem _ hx) y (List.mem_cons_of_mem _ hy))

theorem mem_groupAssocAll (l : List ((String × String) × String)) (lab : String × String)
    (g : List String) (h : (lab, g) ∈ groupAssocAll l) :
    g = (l.filter (fun p => p.1 == lab)).map (·.2) := by
  unfold groupAssocAll at h
  rcases List.mem_map.mp h with ⟨lab', _, heq⟩
  injection heq with h1 h2
  subst h1
  exact h2.symm

theorem nodup_all_eq_le_one {α : Type} (l : List α) (hnd : l.Nodup)
    (heq : ∀ a ∈ l, ∀ b ∈ l, a = b) : l.length ≤ 1 := by
  cases l with
  | nil => simp
  | cons a as =>
      cases as with
      | nil => simp
      | cons b bs =>
          exfalso
          rcases List.pairwise_cons.mp hnd with ⟨hhead, _⟩
          exact hhead b (List.mem_cons_self _ _)
            (heq a (List.mem_cons_self _ _) b (List.mem_cons_of_mem _ (List.mem_cons_self _ _)))

theorem dedup_const_le_one {α : Type} [BEq α] [LawfulBEq α] (l : List α)
    (h : ∀ a ∈ l, ∀ b ∈ l, a = b) : (dedupList l).length ≤ 1 :=
  nodup_all_eq_le_one _ (dedupList_nodup l)
    (fun a ha b hb => h a ((mem_dedupList l a).mp ha) b ((mem_dedupList l b).mp hb))

theorem pair_record (files : List (List Entry)) (H1 : keysNodup files)
    (H3 : sourcesBib files) (f : List Entry) (hf : f ∈ files) (p : String × String)
    (hp : p ∈ (titlesToKeys f).flatMap (fun q => q.2.map (fun k => (k, q.1)))) :
    ∃ rec, rec ∈ files.flatten ∧ rec.key = p.1 ∧ normTitle rec = some p.2 ∧
      files.flatten.find? (fun x => x.key == p.1 && endsWithStr x.source ".bib") =
        some rec := by
  obtain ⟨k, t⟩ := p
  rcases titlesToKeys_pairs_mem f k t hp with ⟨rec, hrec, hk, ht⟩
  have hall : rec ∈ files.flatten := List.mem_flatten.mpr ⟨f, hf, hrec⟩
  refine ⟨rec, hall, hk, ht, ?_⟩
  rw [← hk]
  exact find_key_bib_unique rec files.flatten H1 (fun x hx => H3 x hx) hall

theorem tag_fn_eval (all : List Entry) (p : String × String) (rec : Entry)
    (hfind : all.find? (fun x => x.key == p.1 && endsWithStr x.source ".bib") = some rec) :
    (firstWithKeyBib all p.1 >>= fun e =>
        (pure ((e.etype, p.2), p.1) : Except PyErr ((String × String) × String))) =
      Except.ok
        ((((all.find? (fun x => x.key == p.1 && endsWithStr x.source ".bib")).map
            (·.etype)).getD "", p.2), p.1) := by
  have hfb : firstWithKeyBib all p.1 = Except.ok rec := by
    unfold firstWithKeyBib
    rw [hfind]
  rw [hfb, except_bind_ok, hfind]
  rfl

theorem tagged_label_eq (files : List (List Entry)) (H1 : keysNodup files)
    (H2 : typeTitleNodup files) (H3 : sourcesBib files)
    (p1 p2 : String × String) (rec1 rec2 : Entry)
    (h1 : rec1 ∈ files.flatten) (hk1 : rec1.key = p1.1) (ht1 : normTitle rec1 = some p1.2)
    (h2 : rec2 ∈ files.flatten) (hk2 : rec2.key = p2.1) (ht2 : normTitle rec2 = some p2.2)
    (hty : rec1.etype = rec2.etype) (htt : p1.2 = p2.2) : p1 = p2 := by
  have hrec : rec1 = rec2 := by
    refine H2 rec1 h1 rec2 h2 hty ?_ ?_
    · rw [ht1, ht2, htt]
    · rw [ht1]; simp
  have : p1.1 = p2.1 := by rw [← hk1, ← hk2, hrec]
  exact Prod.ext this htt

theorem passAWithin_false (files : List (List Entry)) (H1 : keysNodup files)
    (H2 : typeTitleNodup files) (H3 : sourcesBib files) (f : List Entry)
    (hf : f ∈ files) :
    passAWithin files.flatten (titlesToKeys f) = Except.ok false := by
  simp only [passAWithin]
  have hmap : mapExcept (fun p => firstWithKeyBib files.flatten p.1 >>= fun e =>
        (pure ((e.etype, p.2), p.1) : Except PyErr ((String × String) × String)))
      ((titlesToKeys f).flatMap (fun q => q.2.map (fun k => (k, q.1)))) =
      Except.ok (((titlesToKeys f).flatMap (fun q => q.2.map (fun k => (k, q.1)))).map
        (fun p => ((((files.flatten.find?
            (fun x => x.key == p.1 && endsWithStr x.source ".bib")).map
          (·.etype)).getD "", p.2), p.1))) := by
    refine mapExcept_of_forall _ _ _ ?_
    intro p hp
    rcases pair_record files H1 H3 f hf p hp with ⟨rec, _, _, _, hfind⟩
    exact tag_fn_eval files.flatten p rec hfind
  rw [hmap, except_bind_ok]
  have hany : ∀ grp ∈ groupAssocAll
      ((((titlesToKeys f).flatMap (fun q => q.2.map (fun k => (k, q.1)))).map
        (fun p => ((((files.flatten.find?
            (fun x => x.key == p.1 && endsWithStr x.source ".bib")).map
          (·.etype)).getD "", p.2), p.1)))), ¬(grp.2.length > 1) := by
    intro grp hgrp
    obtain ⟨lab, gkeys⟩ := grp
    have hg := mem_groupAssocAll _ lab gkeys hgrp
    rw [hg, List.length_map, List.filter_map, List.length_map]
    refine Nat.not_lt.mpr (filter_pairwise_eq_le_one _ _
      (titlesToKeys_pairs_nodup files H1 f hf) ?_)
    intro a ha b hb hpa hpb
    rcases pair_record files H1 H3 f hf a ha with ⟨ra, hra, hka, hta, hfa⟩
    rcases pair_record files H1 H3 f hf b hb with ⟨rb, hrb, hkb, htb, hfb⟩
    simp only [Function.comp, hfa, hfb, Option.map_some', Option.getD_some] at hpa hpb
    have hla := eq_of_beq hpa
    have hlb := eq_of_beq hpb
    have hlab : ((ra.etype, a.2) : String × String) = (rb.etype, b.2) := by
      rw [hla, hlb]
    injection hlab with hty htt
    exact tagged_label_eq files H1 H2 H3 a b ra rb hra hka hta hrb hkb htb hty htt
  rw [except_pure]
  refine congrArg Except.ok ?_
  rw [List.any_eq_false]
  intro a ha
  simpa using hany a ha

theorem cross_pair_record (files : List (List Entry)) (H1 : keysNodup files)
    (H3 : sourcesBib files) (p : String × String)
    (hp : p ∈ (files.map titlesToKeys).flatMap
      (fun ttk => ttk.flatMap (fun q => q.2.map (fun k => (k, q.1))))) :
    ∃ rec, rec ∈ files.flatten ∧ rec.key = p.1 ∧ normTitle rec = some p.2 ∧
      files.flatten.find? (fun x => x.key == p.1 && endsWithStr x.source ".bib") =
        some rec := by
  rcases List.mem_flatMap.mp hp with ⟨ttk, httk, hpin⟩
  rcases List.mem_map.mp httk with ⟨f, hf, rfl⟩
  exact pair_record files H1 H3 f hf p hpin

theorem passACross_false (files : List (List Entry)) (H1 : keysNodup files)
    (H2 : typeTitleNodup files) (H3 : sourcesBib files) :
    passACross files.flatten (files.map titlesToKeys) = Except.ok false := by
  simp only [passACross]
  have hmap : mapExcept (fun p => firstWithKeyBib files.flatten p.1 >>= fun e =>
        (pure ((e.etype, p.2), p.1) : Except PyErr ((String × String) × String)))
      ((files.map titlesToKeys).flatMap
        (fun ttk => ttk.flatMap (fun q => q.2.map (fun k => (k, q.1))))) =
      Except.ok (((files.map titlesToKeys).flatMap
          (fun ttk => ttk.flatMap (fun q => q.2.map (fun k => (k, q.1))))).map
        (fun p => ((((files.flatten.find?
            (fun x => x.key == p.1 && endsWithStr x.source ".bib")).map
          (·.etype)).getD "", p.2), p.1))) := by
    refine mapExcept_of_forall _ _ _ ?_
    intro p hp
    rcases cross_pair_record files H1 H3 p hp with ⟨rec, _, _, _, hfind⟩
    exact tag_fn_eval files.flatten p rec hfind
  rw [hmap, except_bind_ok, except_pure]
  refine congrArg Except.ok ?_
  rw [List.any_eq_false]
  intro grp hgrp
  obtain ⟨lab, gkeys⟩ := grp
  have hg := mem_groupAssocAll _ lab gkeys hgrp
  simp only [decide_eq_true_eq]
  rw [hg]
  refine Nat.not_lt.mpr (dedup_const_le_one _ ?_)
  intro a ha b hb
  rcases List.mem_map.mp ha with ⟨pa, hpa, rfl⟩
  rcases List.mem_map.mp hb with ⟨pb, hpb, rfl⟩
  rcases List.mem_filter.mp hpa with ⟨hpa', hla⟩
  rcases List.mem_filter.mp hpb with ⟨hpb', hlb⟩
  rcases List.mem_map.mp hpa' with ⟨a0, ha0, rfl⟩
  rcases List.mem_map.mp hpb' with ⟨b0, hb0, rfl⟩
  rcases cross_pair_record files H1 H3 a0 ha0 with ⟨ra, hra, hka, hta, hfa⟩
  rcases cross_pair_record files H1 H3 b0 hb0 with ⟨rb, hrb, hkb, htb, hfb⟩
  simp only [hfa, hfb, Option.map_some', Option.getD_some] at hla hlb
  have hla' := eq_of_beq hla
  have hlb' := eq_of_beq hlb
  have hlab : ((ra.etype, a0.2) : String × String) = (rb.etype, b0.2) := by
    rw [hla', hlb']
  injection hlab with hty htt
  have := tagged_label_eq files H1 H2 H3 a0 b0 ra rb hra hka hta hrb hkb htb hty htt
  rw [this]

theorem passA_within_fold (all : List Entry) :
    ∀ (ttks : List (List (String × List String))),
      (∀ ttk ∈ ttks, passAWithin all ttk = Except.ok false) →
      ttks.foldlM (fun acc ttk => do
        let b ← passAWithin all ttk
        pure (acc || b)) false = Except.ok false := by
  intro ttks
  induction ttks with
  | nil => intro _; rfl
  | cons ttk rest ih =>
      intro hall
      rw [List.foldlM_cons, hall ttk (List.mem_cons_self _ _), except_bind_ok]
      exact ih (fun x hx => hall x (List.mem_cons_of_mem _ hx))

theorem passA_false (files : List (List Entry)) (H1 : keysNodup files)
    (H2 : typeTitleNodup files) (H3 : sourcesBib files) :
    check_same_title_different_keys files.flatten (files.map titlesToKeys) =
      Except.ok false := by
  unfold check_same_title_different_keys
  rw [passA_within_fold files.flatten (files.map titlesToKeys) ?hw, except_bind_ok,
    passACross_false files H1 H2 H3, except_bind_ok]
  case hw =>
    intro ttk httk
    rcases List.mem_map.mp httk with ⟨f, hf, rfl⟩
    exact passAWithin_false files H1 H2 H3 f hf
  rfl

theorem assocFindOpt_eq_none {α β : Type} [BEq α] [LawfulBEq α] (m : List (α × β))
    (k : α) (h : k ∉ m.map (·.1)) : assocFindOpt m k = none := by
  unfold assocFindOpt
  have hf : m.find? (fun p => p.1 == k) = none :=
    List.find?_eq_none.mpr (fun p hp hbeq => h (List.mem_map.mpr ⟨p, hp, eq_of_beq hbeq⟩))
  rw [hf]
  rfl

theorem addMerged_append (st : MergeState) (k : String) (v : Entry)
    (h : k ∉ st.merged.map (·.1)) :
    addMerged st k v = ⟨st.merged ++ [(k, v)], st.tcache, st.tlog⟩ := by
  unfold addMerged
  rw [assocFindOpt_eq_none st.merged k h]
  rfl

theorem merge_fold_spec (mode : Mode) (files : List (List Entry)) (H1 : keysNodup files)
    (H2 : typeTitleNodup files) :
    ∀ (l : List Entry) (st : MergeState),
      (∀ x ∈ l, x ∈ files.flatten) → st.tcache = [] →
      ((st.merged.map (·.1)) ++ l.map (·.key)).Nodup →
      l.foldlM (fun st e => mergeStep mode files.flatten (files.map titlesToKeys) st e)
          st =
        Except.ok ⟨st.merged ++ l.map (fun e => (e.key, storedSpec files e)),
          st.tcache, st.tlog⟩ := by
  intro l
  induction l with
  | nil =>
      intro st hmem htc hnd
      simp [List.foldlM_nil, except_pure]
  | cons e ls ih =>
      intro st hmem htc hnd
      have hkey_not : e.key ∉ st.merged.map (·.1) := by
        rw [List.nodup_append] at hnd
        intro hmem'
        exact hnd.2.2 hmem' (by simp)
      have hstep : mergeStep mode files.flatten (files.map titlesToKeys) st e =
          Except.ok ⟨st.merged ++ [(e.key, storedSpec files e)], st.tcache, st.tlog⟩ := by
        cases hnt : normTitle e with
        | none =>
            simp only [mergeStep, hnt, except_pure]
            rw [addMerged_append st e.key e hkey_not]
            simp [storedSpec, hnt]
        | some t =>
            simp only [mergeStep, hnt]
            rw [htc]
            simp only [assocFindOpt, List.find?_nil, Option.map_none']
            rw [collect_spec files H1 H2 e (hmem e (List.mem_cons_self _ _)) t hnt,
              except_bind_ok]
            rw [if_neg (by simp)]
            rw [except_pure, addMerged_append st e.key _ hkey_not]
            simp [storedSpec, hnt, htc]
      rw [List.foldlM_cons, hstep, except_bind_ok]
      have hnd' : (((st.merged ++ [(e.key, storedSpec files e)]).map (·.1)) ++
          ls.map (·.key)).Nodup := by
        simp only [List.map_append, List.map_cons]
        simpa [List.append_assoc] using hnd
      have hrec := ih ⟨st.merged ++ [(e.key, storedSpec files e)], st.tcache, st.tlog⟩
        (fun x hx => hmem x (List.mem_cons_of_mem _ hx)) htc hnd'
      rw [hrec]
      simp [List.append_assoc]

theorem foldlM_enum_ignore {σ : Type} (f : σ → Entry → Except PyErr σ) :
    ∀ (l : List Entry) (n : Nat) (st : σ),
      (List.enumFrom n l).foldlM
        (fun st p => if ([] : List Nat).contains p.1 then pure st else f st p.2) st =
      l.foldlM f st := by
  intro l
  induction l with
  | nil => intro n st; rfl
  | cons e ls ih =>
      intro n st
      rw [show List.enumFrom n (e :: ls) = (n, e) :: List.enumFrom (n + 1) ls from rfl]
      rw [List.foldlM_cons, List.foldlM_cons]
      rw [if_neg (by simp [List.contains])]
      cases hf : f st e with
      | error err => rw [except_bind_error, except_bind_error]
      | ok st2 => rw [except_bind_ok, except_bind_ok, ih]

theorem merge_collision_free (mode : Mode) (files : List (List Entry))
    (H1 : keysNodup files) (H2 : typeTitleNodup files) (H3 : sourcesBib files) :
    merge_bib_files mode files =
      Except.ok ⟨pySorted (files.flatten.map (storedSpec files)), false, false, false,
        [], []⟩ := by
  have hu : merge_bib_files mode files =
      (check_same_title_different_keys files.flatten (files.map titlesToKeys) >>= fun pa =>
        check_same_key_different_titles mode files.flatten >>= fun pb =>
        (files.flatten.enum.foldlM (fun st p => if pb.skips.contains p.1 then pure st
            else mergeStep mode files.flatten (files.map titlesToKeys) st p.2)
          (⟨[], [], []⟩ : MergeState)) >>= fun fin =>
        pure ⟨pySorted (fin.merged.map (·.2)), pa, pb.issues, pb.issues, pb.log,
          fin.tlog⟩) := rfl
  rw [hu, passA_false files H1 H2 H3, except_bind_ok,
    passB_trivial mode files.flatten H1, except_bind_ok]
  rw [show (⟨false, [], [], []⟩ : PassBResult).skips = ([] : List Nat) from rfl]
  rw [List.enum]
  rw [foldlM_enum_ignore
    (fun st e => mergeStep mode files.flatten (files.map titlesToKeys) st e)
    files.flatten 0 (⟨[], [], []⟩ : MergeState)]
  rw [merge_fold_spec mode files H1 H2 files.flatten (⟨[], [], []⟩ : MergeState)
    (fun x hx => hx) rfl (by simpa [keysNodup] using H1)]
  rw [except_bind_ok, except_pure]
  simp [List.map_map]
  rfl

/-! ### Evaluation lemmas for two-record runs -/

theorem get_file_index_congr (e0 e1 : Entry) (h : e1.key = e0.key) :
    get_file_index e1 = get_file_index e0 := by
  unfold get_file_index
  rw [h]

theorem idxLt_irrefl (v : Option Int) : idxLt v v = false := by
  cases v with
  | none => rfl
  | some a => simp [idxLt]

theorem choose_pair_first (e0 e1 : Entry) (hk : e1.key = e0.key) (v : Option Int)
    (hv : get_file_index e0 = Except.ok v) :
    choose_entry_from_smallest_index [e0, e1] = Except.ok e0 := by
  simp only [choose_entry_from_smallest_index]
  rw [hv, except_bind_ok, List.foldlM_cons, get_file_index_congr e0 e1 hk, hv,
    except_bind_ok, idxLt_irrefl]
  rfl

theorem titlesToKeys_single (e : Entry) :
    titlesToKeys [e] =
      match normTitle e with
      | none => []
      | some t => [(t, [e.key])] := by
  cases hnt : normTitle e with
  | none => simp [titlesToKeys, dedupList, hnt]
  | some t => simp [titlesToKeys, dedupList, insertDedup, hnt, List.filter_cons]

theorem firstWithKey_head (e : Entry) (rest : List Entry) :
    firstWithKey (e :: rest) e.key = Except.ok e := by
  unfold firstWithKey
  simp [List.find?_cons]

theorem findBib_head (e : Entry) (rest : List Entry)
    (hbib : endsWithStr e.source ".bib" = true) :
    (e :: rest).find? (fun x => x.key == e.key && endsWithStr x.source ".bib") =
      some e := by
  simp [List.find?_cons, hbib]

theorem groupAssocAll_single (x : (String × String) × String) :
    groupAssocAll [x] = [(x.1, [x.2])] := by
  simp [groupAssocAll, dedupList, insertDedup, List.filter_cons]

theorem passAWithin_nil (all : List Entry) :
    passAWithin all [] = Except.ok false := rfl

theorem passAWithin_one_pair (all : List Entry) (t k : String) (rec : Entry)
    (hfind : all.find? (fun x => x.key == k && endsWithStr x.source ".bib") = some rec) :
    passAWithin all [(t, [k])] = Except.ok false := by
  simp only [passAWithin, List.flatMap_cons, List.map_cons, List.map_nil,
    List.flatMap_nil, List.append_nil, List.nil_append]
  have hfb : firstWithKeyBib all k = Except.ok rec := by
    unfold firstWithKeyBib
    rw [hfind]
  simp only [mapExcept, hfb, except_bind_ok, except_pure]
  rw [groupAssocAll_single]
  rfl

theorem passACross_const_key (files : List (List Entry)) (c : String)
    (hkeys : ∀ p ∈ (files.map titlesToKeys).flatMap
        (fun ttk => ttk.flatMap (fun q => q.2.map (fun k => (k, q.1)))), p.1 = c)
    (hfind : ∀ p ∈ (files.map titlesToKeys).flatMap
        (fun ttk => ttk.flatMap (fun q => q.2.map (fun k => (k, q.1)))),
      ∃ rec, files.flatten.find?
        (fun x => x.key == p.1 && endsWithStr x.source ".bib") = some rec) :
    passACross files.flatten (files.map titlesToKeys) = Except.ok false := by
  simp only [passACross]
  have hmap : mapExcept (fun p => firstWithKeyBib files.flatten p.1 >>= fun e =>
        (pure ((e.etype, p.2), p.1) : Except PyErr ((String × String) × String)))
      ((files.map titlesToKeys).flatMap
        (fun ttk => ttk.flatMap (fun q => q.2.map (fun k => (k, q.1))))) =
      Except.ok (((files.map titlesToKeys).flatMap
          (fun ttk => ttk.flatMap (fun q => q.2.map (fun k => (k, q.1))))).map
        (fun p => ((((files.flatten.find?
            (fun x => x.key == p.1 && endsWithStr x.source ".bib")).map
          (·.etype)).getD "", p.2), p.1))) := by
    refine mapExcept_of_forall _ _ _ ?_
    intro p hp
    rcases hfind p hp with ⟨rec, hrec⟩
    exact tag_fn_eval files.flatten p rec hrec
  rw [hmap, except_bind_ok, except_pure]
  refine congrArg Except.ok ?_
  rw [List.any_eq_false]
  intro grp hgrp
  obtain ⟨lab, gkeys⟩ := grp
  have hg := mem_groupAssocAll _ lab gkeys hgrp
  simp only [decide_eq_true_eq]
  rw [hg]
  refine Nat.not_lt.mpr (dedup_const_le_one _ ?_)
  intro a ha b hb
  rcases List.mem_map.mp ha with ⟨pa, hpa, rfl⟩
  rcases List.mem_map.mp hb with ⟨pb, hpb, rfl⟩
  rcases List.mem_filter.mp hpa with ⟨hpa', _⟩
  rcases List.mem_filter.mp hpb with ⟨hpb', _⟩
  rcases List.mem_map.mp hpa' with ⟨a0, ha0, rfl⟩
  rcases List.mem_map.mp hpb' with ⟨b0, hb0, rfl⟩
  show a0.1 = b0.1
  rw [hkeys a0 ha0, hkeys b0 hb0]

theorem pySorted_single (e : Entry) : pySorted [e] = [e] := rfl

theorem insertDedup_mem_eq {α : Type} [BEq α] [LawfulBEq α] (l : List α) (a : α)
    (h : a ∈ l) : insertDedup l a = l := by
  unfold insertDedup
  rw [if_pos ((contains_true l a).mpr h)]

theorem insertDedup_not_mem {α : Type} [BEq α] [LawfulBEq α] (l : List α) (a : α)
    (h : a ∉ l) : insertDedup l a = l ++ [a] := by
  unfold insertDedup
  rw [if_neg (fun hc => h ((contains_true l a).mp hc))]

theorem dedupList_two_eq {α : Type} [BEq α] [LawfulBEq α] (x y : α) (h : y = x) :
    dedupList [x, y] = [x] := by
  rw [h]
  unfold dedupList
  rw [List.foldl_cons, List.foldl_cons, List.foldl_nil,
    insertDedup_not_mem [] x (List.not_mem_nil x), List.nil_append,
    insertDedup_mem_eq [x] x (List.mem_singleton.mpr rfl)]

theorem dedupList_two_ne {α : Type} [BEq α] [LawfulBEq α] (x y : α) (h : y ≠ x) :
    dedupList [x, y] = [x, y] := by
  unfold dedupList
  rw [List.foldl_cons, List.foldl_cons, List.foldl_nil,
    insertDedup_not_mem [] x (List.not_mem_nil x), List.nil_append,
    insertDedup_not_mem [x] y (by simpa using h)]
  rfl

theorem filter_eqsome_le_one {α β : Type} [DecidableEq β] (f : α → Option β) (t : β) :
    ∀ (l : List α), (l.filterMap f).Nodup →
      (l.filter (fun a => f a == some t)).length ≤ 1 := by
  intro l
  induction l with
  | nil => intro _; simp
  | cons a as ih =>
      intro hnd
      rw [List.filter_cons]
      by_cases hfa : (f a == some t) = true
      · rw [if_pos hfa]
        have hfa' : f a = some t := by simpa using hfa
        rw [List.filterMap_cons, hfa'] at hnd
        have hnot : t ∉ as.filterMap f := (List.nodup_cons.mp hnd).1
        have hnil : as.filter (fun x => f x == some t) = [] := by
          rw [List.filter_eq_nil_iff]
          intro x hx hfx
          exact hnot (List.mem_filterMap.mpr ⟨x, hx, by simpa using hfx⟩)
        rw [hnil]
        simp
      · rw [if_neg hfa]
        apply ih
        rw [List.filterMap_cons] at hnd
        cases hfc : f a with
        | none => rw [hfc] at hnd; exact hnd
        | some b => rw [hfc] at hnd; exact (List.nodup_cons.mp hnd).2

theorem mem_length_le_one_eq {α : Type} :
    ∀ (l : List α) (a : α), a ∈ l → l.length ≤ 1 → l = [a] := by
  intro l a h hle
  match l, h, hle with
  | [b], h, _ => rw [List.mem_singleton.mp h]
  | b :: c :: t, _, hle => simp [List.length_cons] at hle

theorem storedSpec_eq_self (files : List (List Entry)) (H : titlesNodup files)
    (e : Entry) (he : e ∈ files.flatten) : storedSpec files e = e := by
  cases hnt : normTitle e with
  | none => simp [storedSpec, hnt]
  | some t =>
      simp only [storedSpec, hnt]
      have hmem : e ∈ files.flatten.filter (fun x => normTitle x == some t) :=
        List.mem_filter.mpr ⟨he, by simp [hnt]⟩
      rw [mem_length_le_one_eq _ e hmem (filter_eqsome_le_one normTitle t files.flatten H)]
      rfl

theorem typeTitleNodup_of_titlesNodup (files : List (List Entry))
    (H : titlesNodup files) : typeTitleNodup files := by
  intro a ha b hb _ hnt hne
  cases hna : normTitle a with
  | none => exact absurd hna hne
  | some t =>
      have hnb : normTitle b = some t := by rw [← hnt, hna]
      have hma : a ∈ files.flatten.filter (fun x => normTitle x == some t) :=
        List.mem_filter.mpr ⟨ha, by simp [hna]⟩
      have hmb : b ∈ files.flatten.filter (fun x => normTitle x == some t) :=
        List.mem_filter.mpr ⟨hb, by simp [hnb]⟩
      have hone := mem_length_le_one_eq _ a hma
        (filter_eqsome_le_one normTitle t files.flatten H)
      rw [hone] at hmb
      exact (List.mem_singleton.mp hmb).symm

theorem passBGroups_pair (e0 e1 : Entry) (hk : e1.key = e0.key) :
    passBGroups [e0, e1] =
      (groupPairsBy (·.etype) [(0, e0), (1, e1)]).map
        (fun tg => ((e0.key, tg.1), tg.2)) := by
  unfold passBGroups
  rw [show ([e0, e1] : List Entry).enum = [(0, e0), (1, e1)] from rfl]
  have hgk : groupPairsBy (·.key) [(0, e0), (1, e1)] =
      [(e0.key, [(0, e0), (1, e1)])] := by
    unfold groupPairsBy
    rw [show ([(0, e0), (1, e1)] : List (Nat × Entry)).map (fun p => p.2.key) =
      [e0.key, e1.key] from rfl]
    rw [dedupList_two_eq e0.key e1.key hk]
    simp [List.filter_cons, hk]
  rw [hgk]
  simp

theorem passB_pair_difftype (mode : Mode) (e0 e1 : Entry) (hk : e1.key = e0.key)
    (hty : e0.etype ≠ e1.etype) :
    check_same_key_different_titles mode [e0, e1] = Except.ok ⟨false, [], [], []⟩ := by
  unfold check_same_key_different_titles
  rw [passBGroups_pair e0 e1 hk]
  have hgt : groupPairsBy (·.etype) [(0, e0), (1, e1)] =
      [(e0.etype, [(0, e0)]), (e1.etype, [(1, e1)])] := by
    unfold groupPairsBy
    rw [show ([(0, e0), (1, e1)] : List (Nat × Entry)).map (fun p => p.2.etype) =
      [e0.etype, e1.etype] from rfl]
    rw [dedupList_two_ne e0.etype e1.etype (Ne.symm hty)]
    simp only [List.map_cons, List.map_nil, List.filter_cons, List.filter_nil]
    simp [beq_eq_false_iff_ne.mpr hty, beq_eq_false_iff_ne.mpr (Ne.symm hty)]
  rw [hgt]
  simp only [List.map_cons, List.map_nil]
  rw [List.foldlM_cons, passBStep_pure mode _ _ (by simp), except_bind_ok,
    List.foldlM_cons, passBStep_pure mode _ _ (by simp), except_bind_ok,
    List.foldlM_nil]
  rfl

theorem passB_pair_conflict (e0 e1 : Entry) (hk : e1.key = e0.key)
    (hty : e1.etype = e0.etype) (hne : e1 ≠ e0)
    (htit : normTitle e1 ≠ normTitle e0) (v : Option Int)
    (hv : get_file_index e0 = Except.ok v) :
    check_same_key_different_titles Mode.auto [e0, e1] =
      Except.ok ⟨true, [1], [(e0.key, e0)], []⟩ := by
  unfold check_same_key_different_titles
  rw [passBGroups_pair e0 e1 hk]
  have hgt : groupPairsBy (·.etype) [(0, e0), (1, e1)] =
      [(e0.etype, [(0, e0), (1, e1)])] := by
    unfold groupPairsBy
    rw [show ([(0, e0), (1, e1)] : List (Nat × Entry)).map (fun p => p.2.etype) =
      [e0.etype, e1.etype] from rfl]
    rw [dedupList_two_eq e0.etype e1.etype hty]
    simp [List.filter_cons, hty]
  rw [hgt]
  simp only [List.map_cons, List.map_nil]
  rw [List.foldlM_cons]
  have hstep : passBStep Mode.auto ⟨false, [], [], []⟩
      ((e0.key, e0.etype), [(0, e0), (1, e1)]) =
      Except.ok ⟨true, [1], [(e0.key, e0)], []⟩ := by
    simp only [passBStep]
    rw [if_pos ?cond]
    case cond =>
      rw [show ([(0, e0), (1, e1)] : List (Nat × Entry)).map (fun p => normTitle p.2) =
        [normTitle e0, normTitle e1] from rfl]
      rw [dedupList_two_ne _ _ htit]
      simp
    rw [show ([(0, e0), (1, e1)] : List (Nat × Entry)).map (·.2) = [e0, e1] from rfl]
    rw [choose_pair_first e0 e1 hk v hv, except_bind_ok]
    have hfil : ([(0, e0), (1, e1)] : List (Nat × Entry)).filter
        (fun p => decide (p.2 ≠ e0)) = [(1, e1)] := by
      simp [List.filter_cons, hne]
    rw [hfil]
    rfl
  rw [hstep, except_bind_ok, List.foldlM_nil]
  rfl

theorem passA_pair_ok (e0 e1 : Entry) (hk : e1.key = e0.key)
    (hbib0 : endsWithStr e0.source ".bib" = true) :
    check_same_title_different_keys [e0, e1] [titlesToKeys [e0], titlesToKeys [e1]] =
      Except.ok false := by
  have hfind0 : ([e0, e1] : List Entry).find?
      (fun x => x.key == e0.key && endsWithStr x.source ".bib") = some e0 :=
    findBib_head e0 [e1] hbib0
  have hw0 : passAWithin [e0, e1] (titlesToKeys [e0]) = Except.ok false := by
    cases hnt : normTitle e0 with
    | none =>
        rw [titlesToKeys_single, hnt]
        exact passAWithin_nil [e0, e1]
    | some t =>
        rw [titlesToKeys_single, hnt]
        exact passAWithin_one_pair [e0, e1] t e0.key e0 hfind0
  have hw1 : passAWithin [e0, e1] (titlesToKeys [e1]) = Except.ok false := by
    cases hnt : normTitle e1 with
    | none =>
        rw [titlesToKeys_single, hnt]
        exact passAWithin_nil [e0, e1]
    | some t =>
        rw [titlesToKeys_single, hnt]
        refine passAWithin_one_pair [e0, e1] t e1.key e0 ?_
        rw [hk]
        exact hfind0
  have hconst : ∀ p ∈ (([[e0], [e1]] : List (List Entry)).map titlesToKeys).flatMap
      (fun ttk => ttk.flatMap (fun q => q.2.map (fun k => (k, q.1)))), p.1 = e0.key := by
    intro p hp
    obtain ⟨k, t⟩ := p
    rcases List.mem_flatMap.mp hp with ⟨ttk, httk, hpin⟩
    rcases List.mem_map.mp httk with ⟨f, hf, rfl⟩
    rcases List.mem_cons.mp hf with rfl | hf1
    · rcases titlesToKeys_pairs_mem [e0] k t hpin with ⟨rec, hrec, hkk, _⟩
      have hre : rec = e0 := List.mem_singleton.mp hrec
      show k = e0.key
      rw [← hkk, hre]
    · rw [List.mem_singleton.mp hf1] at hpin
      rcases titlesToKeys_pairs_mem [e1] k t hpin with ⟨rec, hrec, hkk, _⟩
      have hre : rec = e1 := List.mem_singleton.mp hrec
      show k = e0.key
      rw [← hkk, hre, hk]
  have hfindp : ∀ p ∈ (([[e0], [e1]] : List (List Entry)).map titlesToKeys).flatMap
      (fun ttk => ttk.flatMap (fun q => q.2.map (fun k => (k, q.1)))),
      ∃ rec, ([[e0], [e1]] : List (List Entry)).flatten.find?
        (fun x => x.key == p.1 && endsWithStr x.source ".bib") = some rec := by
    intro p hp
    refine ⟨e0, ?_⟩
    rw [hconst p hp]
    exact findBib_head e0 [e1] hbib0
  have hcross : passACross [e0, e1] [titlesToKeys [e0], titlesToKeys [e1]] =
      Except.ok false :=
    passACross_const_key [[e0], [e1]] e0.key hconst hfindp
  unfold check_same_title_different_keys
  rw [passA_within_fold [e0, e1] [titlesToKeys [e0], titlesToKeys [e1]]
    (by
      intro ttk httk
      rcases List.mem_cons.mp httk with rfl | httk1
      · exact hw0
      · rw [List.mem_singleton.mp httk1]
        exact hw1),
    except_bind_ok, hcross, except_bind_ok]
  rfl

theorem collect_pair_first (e0 e1 : Entry) (hk : e1.key = e0.key) (t0 : String)
    (hnt0 : normTitle e0 = some t0) :
    collectTitleGroup [e0, e1] [titlesToKeys [e0], titlesToKeys [e1]] t0 e0.etype e0 =
      Except.ok ([e0.key], e0) := by
  simp only [collectTitleGroup]
  rw [show ([titlesToKeys [e0], titlesToKeys [e1]] : List (List (String × List String))) =
    ([[e0], [e1]] : List (List Entry)).map titlesToKeys from rfl]
  rw [collect_ks [[e0], [e1]] t0]
  rw [show ([[e0], [e1]] : List (List Entry)).flatten = [e0, e1] from rfl]
  rw [List.filter_cons, if_pos (by simp [hnt0]), List.filter_cons]
  have hf0 : firstWithKey [e0, e1] e0.key = Except.ok e0 := firstWithKey_head e0 [e1]
  have hf1 : firstWithKey [e0, e1] e1.key = Except.ok e0 := by rw [hk]; exact hf0
  by_cases hb : (normTitle e1 == some t0) = true
  · rw [if_pos hb, List.filter_nil]
    simp only [List.map_cons, List.map_nil, mapExcept, hf0, hf1, except_bind_ok,
      except_pure]
    have hfold : (([e0.key, e1.key] : List String).zip [e0, e0]).foldl
        (fun acc p => if p.2.etype == e0.etype then insertDedup acc p.1 else acc)
        ([] : List String) = [e0.key] := by
      rw [show (([e0.key, e1.key] : List String).zip [e0, e0]) =
        [(e0.key, e0), (e1.key, e0)] from rfl]
      rw [List.foldl_cons, if_pos (by simp),
        insertDedup_not_mem [] e0.key (List.not_mem_nil _), List.nil_append,
        List.foldl_cons, if_pos (by simp),
        insertDedup_mem_eq [e0.key] e1.key (List.mem_singleton.mpr hk), List.foldl_nil]
    rw [hfold]
    rfl
  · rw [if_neg hb, List.filter_nil]
    simp only [List.map_cons, List.map_nil, mapExcept, hf0, except_bind_ok, except_pure]
    have hfold : (([e0.key] : List String).zip [e0]).foldl
        (fun acc p => if p.2.etype == e0.etype then insertDedup acc p.1 else acc)
        ([] : List String) = [e0.key] := by
      rw [show (([e0.key] : List String).zip [e0]) = [(e0.key, e0)] from rfl]
      rw [List.foldl_cons, if_pos (by simp),
        insertDedup_not_mem [] e0.key (List.not_mem_nil _), List.nil_append,
        List.foldl_nil]
    rw [hfold]
    rfl

theorem collect_pair_second (e0 e1 : Entry) (hk : e1.key = e0.key)
    (hty : e0.etype ≠ e1.etype) (t1 : String) (hnt1 : normTitle e1 = some t1) :
    collectTitleGroup [e0, e1] [titlesToKeys [e0], titlesToKeys [e1]] t1 e1.etype e1 =
      Except.ok ([], e0) := by
  simp only [collectTitleGroup]
  rw [show ([titlesToKeys [e0], titlesToKeys [e1]] : List (List (String × List String))) =
    ([[e0], [e1]] : List (List Entry)).map titlesToKeys from rfl]
  rw [collect_ks [[e0], [e1]] t1]
  rw [show ([[e0], [e1]] : List (List Entry)).flatten = [e0, e1] from rfl]
  have hf0 : firstWithKey [e0, e1] e0.key = Except.ok e0 := firstWithKey_head e0 [e1]
  have hf1 : firstWithKey [e0, e1] e1.key = Except.ok e0 := by rw [hk]; exact hf0
  by_cases hb : (normTitle e0 == some t1) = true
  · rw [List.filter_cons, if_pos hb, List.filter_cons, if_pos (by simp [hnt1]),
      List.filter_nil]
    simp only [List.map_cons, List.map_nil, mapExcept, hf0, hf1, except_bind_ok,
      except_pure]
    have hfold : (([e0.key, e1.key] : List String).zip [e0, e0]).foldl
        (fun acc p => if p.2.etype == e1.etype then insertDedup acc p.1 else acc)
        ([] : List String) = [] := by
      rw [show (([e0.key, e1.key] : List String).zip [e0, e0]) =
        [(e0.key, e0), (e1.key, e0)] from rfl]
      rw [List.foldl_cons, if_neg (by simp [hty]), List.foldl_cons,
        if_neg (by simp [hty]), List.foldl_nil]
    rw [hfold]
    rfl
  · rw [List.filter_cons, if_neg hb, List.filter_cons, if_pos (by simp [hnt1]),
      List.filter_nil]
    simp only [List.map_cons, List.map_nil, mapExcept, hf1, except_bind_ok, except_pure]
    have hfold : (([e1.key] : List String).zip [e0]).foldl
        (fun acc p => if p.2.etype == e1.etype then insertDedup acc p.1 else acc)
        ([] : List String) = [] := by
      rw [show (([e1.key] : List String).zip [e0]) = [(e1.key, e0)] from rfl]
      rw [List.foldl_cons, if_neg (by simp [hty]), List.foldl_nil]
    rw [hfold]
    rfl

theorem mergeStep_pair_first (e0 e1 : Entry) (hk : e1.key = e0.key) :
    mergeStep Mode.auto [e0, e1] [titlesToKeys [e0], titlesToKeys [e1]]
      ⟨[], [], []⟩ e0 = Except.ok ⟨[(e0.key, e0)], [], []⟩ := by
  cases hnt0 : normTitle e0 with
  | none =>
      simp only [mergeStep, hnt0]
      rfl
  | some t0 =>
      have hass : assocFindOpt ([] : List ((String × String) × String))
        (e0.etype, t0) = none := rfl
      simp only [mergeStep, hnt0, hass]
      rw [collect_pair_first e0 e1 hk t0 hnt0, except_bind_ok, if_neg (by simp)]
      rfl

theorem mergeStep_pair_second (e0 e1 : Entry) (hk : e1.key = e0.key)
    (hty : e0.etype ≠ e1.etype) :
    mergeStep Mode.auto [e0, e1] [titlesToKeys [e0], titlesToKeys [e1]]
      ⟨[(e0.key, e0)], [], []⟩ e1 = Except.ok ⟨[(e0.key, e0)], [], []⟩ := by
  have hfp : (assocFindOpt ([(e0.key, e0)] : List (String × Entry)) e1.key).isSome =
      true := by
    simp [assocFindOpt, List.find?_cons, hk]
  have haddset : ∀ v : Entry, addMerged ⟨[(e0.key, e0)], [], []⟩ e1.key v =
      ⟨[(e0.key, e0)], [], []⟩ := by
    intro v
    unfold addMerged
    rw [if_pos hfp]
  cases hnt1 : normTitle e1 with
  | none =>
      simp only [mergeStep, hnt1]
      rw [haddset]
      rfl
  | some t1 =>
      have hass : assocFindOpt ([] : List ((String × String) × String))
        (e1.etype, t1) = none := rfl
      simp only [mergeStep, hnt1, hass]
      rw [collect_pair_second e0 e1 hk hty t1 hnt1, except_bind_ok, if_neg (by simp)]
      rw [haddset]
      rfl

/-- C6: for every completed run, in either mode, the merged output sequence
is sorted by `(normalized title, type, identifier)` ascending (the key of
line 348, lexicographically), every output record is one of the input
records taken verbatim (its raw body unchanged), and the serialized file is
each record's raw text followed by a blank-line separator (`"\n\n"`,
line 353). -/
theorem c6_output_sorted_verbatim_separated (mode : Mode) (files : List (List Entry))
    (r : MergeResult) (h : merge_bib_files mode files = Except.ok r) :
    List.Pairwise sortLeP r.output ∧ (∀ e ∈ r.output, e ∈ files.flatten) ∧
      serializeEntries r.output = String.join (r.output.map (fun e => e.raw ++ "\n\n")) := by
  have hu : merge_bib_files mode files =
      (check_same_title_different_keys files.flatten (files.map titlesToKeys) >>= fun pa =>
        check_same_key_different_titles mode files.flatten >>= fun pb =>
        (files.flatten.enum.foldlM (fun st p => if pb.skips.contains p.1 then pure st
            else mergeStep mode files.flatten (files.map titlesToKeys) st p.2)
          (⟨[], [], []⟩ : MergeState)) >>= fun fin =>
        pure ⟨pySorted (fin.merged.map (·.2)), pa, pb.issues, pb.issues, pb.log,
          fin.tlog⟩) := rfl
  rw [hu] at h
  cases hpa : check_same_title_different_keys files.flatten (files.map titlesToKeys) with
  | error err => rw [hpa, except_bind_error] at h; cases h
  | ok pa =>
      rw [hpa, except_bind_ok] at h
      cases hpb : check_same_key_different_titles mode files.flatten with
      | error err => rw [hpb, except_bind_error] at h; cases h
      | ok pb =>
          rw [hpb, except_bind_ok] at h
          cases hfold : files.flatten.enum.foldlM
              (fun st p => if pb.skips.contains p.1 then pure st
                else mergeStep mode files.flatten (files.map titlesToKeys) st p.2)
              (⟨[], [], []⟩ : MergeState) with
          | error err => rw [hfold, except_bind_error] at h; cases h
          | ok fin =>
              rw [hfold, except_bind_ok, except_pure] at h
              cases h
              have hmem : ∀ p ∈ fin.merged, p.2 ∈ files.flatten := by
                refine foldlM_inv (fun st => ∀ p ∈ st.merged, p.2 ∈ files.flatten)
                  _ files.flatten.enum (⟨[], [], []⟩ : MergeState) fin ?_ ?_ hfold
                · intro t a t' ha hPt hstep
                  by_cases hsk : pb.skips.contains a.1
                  · rw [if_pos hsk, except_pure] at hstep
                    cases hstep; exact hPt
                  · rw [if_neg hsk] at hstep
                    exact mergeStep_merged_mem mode files.flatten (files.map titlesToKeys)
                      t a.2 t' (mem_of_mem_enum files.flatten a ha) hPt hstep
                · intro p hp; cases hp
              refine ⟨pySorted_pairwise _, ?_, serializeEntries_join _⟩
              intro e he
              have he' := (pySorted_perm (fin.merged.map (·.2))).mem_iff.mp he
              rcases List.mem_map.mp he' with ⟨p, hp, rfl⟩
              exact hmem p hp

/-- C6 witness: the collision-free two-record run, evaluated concretely and
fed through `c6_output_sorted_verbatim_separated`. -/
theorem c6_output_sorted_verbatim_separated_witness :
    ∃ r, merge_bib_files Mode.auto [[exV0], [exV1]] = Except.ok r ∧
      (List.Pairwise sortLeP r.output ∧ (∀ e ∈ r.output, e ∈ [[exV0], [exV1]].flatten) ∧
        serializeEntries r.output = String.join (r.output.map (fun e => e.raw ++ "\n\n"))) := by
  have h : merge_bib_files Mode.auto [[exV0], [exV1]] =
      Except.ok ⟨[exV0, exV1], false, false, false, [], []⟩ := by decide
  exact ⟨_, h, c6_output_sorted_verbatim_separated Mode.auto [[exV0], [exV1]] _ h⟩

/-- C7: in every completed interactive run, each ConflictKey is resolved at
most once.  The operator is prompted at most once per `(identifier, type)`
group in pass B (each prompt is guarded by the `key_to_chosen_entry` cache,
line 225, and each group is visited once), and at most once per
`(type, normalized title)` at merge time (the prompt of line 334 fires only
when `title_to_chosen_key` has no entry for the pair, and its answer is
cached at line 335): neither prompt log repeats a ConflictKey. -/
theorem c7_conflict_key_resolved_once (oKey : String → List Entry → KeyAnswer)
    (oTitle : Option String → List String → TitleAnswer) (files : List (List Entry))
    (r : MergeResult)
    (h : merge_bib_files (Mode.manual oKey oTitle) files = Except.ok r) :
    r.logKeyPrompts.Nodup ∧ r.logTitlePrompts.Nodup := by
  have hu : merge_bib_files (Mode.manual oKey oTitle) files =
      (check_same_title_different_keys files.flatten (files.map titlesToKeys) >>= fun pa =>
        check_same_key_different_titles (Mode.manual oKey oTitle) files.flatten >>= fun pb =>
        (files.flatten.enum.foldlM (fun st p => if pb.skips.contains p.1 then pure st
            else mergeStep (Mode.manual oKey oTitle) files.flatten (files.map titlesToKeys)
              st p.2)
          (⟨[], [], []⟩ : MergeState)) >>= fun fin =>
        pure ⟨pySorted (fin.merged.map (·.2)), pa, pb.issues, pb.issues, pb.log,
          fin.tlog⟩) := rfl
  rw [hu] at h
  cases hpa : check_same_title_different_keys files.flatten (files.map titlesToKeys) with
  | error err => rw [hpa, except_bind_error] at h; cases h
  | ok pa =>
      rw [hpa, except_bind_ok] at h
      cases hpb : check_same_key_different_titles (Mode.manual oKey oTitle)
          files.flatten with
      | error err => rw [hpb, except_bind_error] at h; cases h
      | ok pb =>
          rw [hpb, except_bind_ok] at h
          cases hfold : files.flatten.enum.foldlM
              (fun st p => if pb.skips.contains p.1 then pure st
                else mergeStep (Mode.manual oKey oTitle) files.flatten
                  (files.map titlesToKeys) st p.2)
              (⟨[], [], []⟩ : MergeState) with
          | error err => rw [hfold, except_bind_error] at h; cases h
          | ok fin =>
              rw [hfold, except_bind_ok, except_pure] at h
              cases h
              refine ⟨passB_log_nodup _ files.flatten pb hpb, ?_⟩
              have hinv : TlogInv fin := by
                refine foldlM_inv TlogInv _ files.flatten.enum
                  (⟨[], [], []⟩ : MergeState) fin ?_ ?_ hfold
                · intro t a t' _ hPt hstep
                  by_cases hsk : pb.skips.contains a.1
                  · rw [if_pos hsk, except_pure] at hstep
                    cases hstep; exact hPt
                  · rw [if_neg hsk] at hstep
                    exact mergeStep_tloginv _ files.flatten (files.map titlesToKeys)
                      t a.2 t' hPt hstep
                · exact ⟨List.Pairwise.nil, fun x hx => absurd hx (List.not_mem_nil x)⟩
              exact hinv.1

/-- C7 witness: the two-record same-key different-title store merged
interactively with an operator that picks the first candidate; the run
completes with exactly one key prompt and no title prompt, and
`c7_conflict_key_resolved_once` applies. -/
theorem c7_conflict_key_resolved_once_witness :
    ∃ r, merge_bib_files
        (Mode.manual (fun _ _ => KeyAnswer.pick 1) (fun _ _ => TitleAnswer.pickT 1))
        [[exW0], [exW1]] = Except.ok r ∧
      (r.logKeyPrompts.Nodup ∧ r.logTitlePrompts.Nodup) := by
  have h : merge_bib_files
      (Mode.manual (fun _ _ => KeyAnswer.pick 1) (fun _ _ => TitleAnswer.pickT 1))
      [[exW0], [exW1]] =
      Except.ok ⟨[exW0], false, true, true, [("keyW", "article")], []⟩ := by decide
  exact ⟨_, h, c7_conflict_key_resolved_once _ _ [[exW0], [exW1]] _ h⟩

/-- C1: two records with identical type and identical normalized title but
different identifiers (`keyA` in the first source, `keyB` in the second),
merged non-interactively.  The output does contain exactly one record for
that `(type, title)`, but it is the record of the **higher** source index:
the collection loop of lines 322-329 rebinds the merge loop's `entry`
variable to the last group member examined, so line 344 stores that record —
here `exB`, identifier `keyB` — regardless of which key
`choose_entry_from_smallest_index` picked (and that choice itself reads the
citation key, not the `key_filecount_filepath` handle its comment describes,
so both candidates decode to `float('inf')`). -/
theorem c1_higher_index_record_survives :
    (merge_bib_files Mode.auto [[exA], [exB]]).map (fun r => r.output) =
        Except.ok [exB] ∧
      (merge_bib_files Mode.auto [[exA], [exB]]).map (fun r => r.output.map (·.key)) =
        Except.ok ["keyB"] := by
  constructor <;> decide

/-- C4: on the same input, pass A reports a cross-file same-title conflict
(`passA = true`) while pass B reports none, yet the final
"inconsistencies were found" flag is `false`: line 305 rebinds `has_issues`
to pass B's flag alone, discarding the pass-A flag accumulated at
line 302. -/
theorem c4_passA_flag_discarded :
    (merge_bib_files Mode.auto [[exA], [exB]]).map
        (fun r => (r.passA, r.passB, r.finalFlag)) =
      Except.ok (true, false, false) := by
  decide

/-- C3 counterexample: two records with identical identifier `keyC` but
different types, merged non-interactively.  No conflict of either kind is
reported — but the output contains only the first record; the second is
silently dropped by the identifier-keyed deduplication of lines 343-344,
refuting "both records survive as independent entries". -/
theorem c3_second_record_dropped :
    (merge_bib_files Mode.auto [[exC0], [exC1]]).map
        (fun r => (r.output, r.passA, r.passB)) =
      Except.ok ([exC0], false, false) := by
  decide

/-- C10: `choose_entry_from_smallest_index` applied to a non-empty candidate
list whose record has identifier `smith_2020` raises `ValueError`
(`int('smith')` on the second-to-last underscore-separated part), instead of
returning a record. -/
theorem c10_underscore_key_raises :
    choose_entry_from_smallest_index [exSmith] = Except.error PyErr.valueError ∧
      get_file_index exSmith = Except.error PyErr.valueError := by
  constructor <;> decide

/-- C8: with the output file already existing, `--no-interactive` and the
`--overwrite` flag both set, the run exits with status 1 instead of
proceeding silently: `__main__` (line 377) never forwards `args.overwrite`
to `merge_bib_files`, so `check_output_file` runs with `overwrite=False` —
even though `check_output_file` itself would honour the flag (second
conjunct). -/
theorem c8_overwrite_flag_dropped :
    mainPrecheck true true true true = PrecheckOutcome.exitNonZero ∧
      check_output_file true false true true = PrecheckOutcome.proceed := by
  constructor <;> decide

/-- C2 counterexample: a run containing the same-identifier different-title
pair `exD0`/`exD1` (pass B skips `exD1`) plus an innocent third record
`exD2` with its own identifier `keyE` and the loser's title.  The claim's
"the losing record is excluded … including from subsequent title-based
grouping" fails: the loser's `(title → keyD)` association stays in the
per-file title index built at lines 286-295, so `exD2` is grouped with
`keyD`, mapped onto it, and vanishes — the output is `[exD0]` alone, with no
record for `keyE`. -/
theorem c2_loser_still_groups :
    (merge_bib_files Mode.auto [[exD0], [exD1], [exD2]]).map (fun r => r.output) =
        Except.ok [exD0] ∧
      (merge_bib_files Mode.auto [[exD0], [exD1], [exD2]]).map
          (fun r => r.output.map (·.key)) =
        Except.ok ["keyD"] := by
  constructor <;> decide

/-- C9 counterexample: merging the four-record store
`[[exH0, exH1, exH2], [exH3]]` non-interactively yields the two-record output
`[exH1, exH2]` — two distinct `@article` records with the same normalized
title and different identifiers.  Feeding that output back as a single
source, the second run reports a (new) same-title different-key conflict
(`passA = true`) and collapses the set to the single record `[exH2]`: the
merge is not idempotent. -/
theorem c9_not_idempotent :
    (merge_bib_files Mode.auto [[exH0, exH1, exH2], [exH3]]).map
        (fun r1 => (r1.output,
          (merge_bib_files Mode.auto [r1.output]).map
            (fun r2 => (r2.output, r2.passA)))) =
      Except.ok ([exH1, exH2], Except.ok ([exH2], true)) ∧ exH1 ≠ exH2 := by
  constructor
  · decide
  · decide

/-- C5: for every record store in which no two records share an identifier
(`keysNodup`), no two records share a `(type, normalized title)` pair
(`typeTitleNodup`), and every source file name ends in `.bib` (`sourcesBib`,
true of every file `parse_bib_file` is given), the interactive run equals the
non-interactive run for every pair of operator oracles — no prompt is ever
reached — and the merged output contains exactly as many records as the
total input record count. -/
theorem c5_collision_free_size_and_mode (files : List (List Entry))
    (H1 : keysNodup files) (H2 : typeTitleNodup files) (H3 : sourcesBib files) :
    (∀ (oKey : String → List Entry → KeyAnswer)
       (oTitle : Option String → List String → TitleAnswer),
        merge_bib_files (Mode.manual oKey oTitle) files =
          merge_bib_files Mode.auto files) ∧
      ∃ r, merge_bib_files Mode.auto files = Except.ok r ∧
        r.output.length = files.flatten.length := by
  constructor
  · intro oKey oTitle
    rw [merge_collision_free (Mode.manual oKey oTitle) files H1 H2 H3,
      merge_collision_free Mode.auto files H1 H2 H3]
  · refine ⟨_, merge_collision_free Mode.auto files H1 H2 H3, ?_⟩
    rw [(pySorted_perm _).length_eq, List.length_map]

/-- C5 witness: the two-file collision-free store `[[exV0], [exV1]]` satisfies
the hypotheses and yields a two-record output under both modes. -/
theorem c5_collision_free_size_and_mode_witness :
    (keysNodup [[exV0], [exV1]] ∧ typeTitleNodup [[exV0], [exV1]] ∧
      sourcesBib [[exV0], [exV1]]) ∧
    ((∀ (oKey : String → List Entry → KeyAnswer)
        (oTitle : Option String → List String → TitleAnswer),
         merge_bib_files (Mode.manual oKey oTitle) [[exV0], [exV1]] =
           merge_bib_files Mode.auto [[exV0], [exV1]]) ∧
       ∃ r, merge_bib_files Mode.auto [[exV0], [exV1]] = Except.ok r ∧
         r.output.length = ([[exV0], [exV1]] : List (List Entry)).flatten.length) :=
  ⟨⟨by unfold keysNodup; decide, by unfold typeTitleNodup; decide,
      by unfold sourcesBib; decide⟩,
    c5_collision_free_size_and_mode [[exV0], [exV1]]
      (by unfold keysNodup; decide) (by unfold typeTitleNodup; decide)
      (by unfold sourcesBib; decide)⟩

/-- C9 (amended): merging is not idempotent in general (see the
counterexample), but it is idempotent on collision-free stores: if no two
records share an identifier, no two titled records share a normalized title,
and all sources are `.bib` files, the run succeeds with both conflict flags
clear, and feeding its output back as a single source succeeds again with
both flags clear and the identical output sequence. -/
theorem c9_idempotent_when_collision_free (files : List (List Entry))
    (H1 : keysNodup files) (H2 : titlesNodup files) (H3 : sourcesBib files) :
    ∃ r1 r2 : MergeResult,
      merge_bib_files Mode.auto files = Except.ok r1 ∧
      merge_bib_files Mode.auto [r1.output] = Except.ok r2 ∧
      r2.output = r1.output ∧
      r1.passA = false ∧ r1.passB = false ∧ r2.passA = false ∧ r2.passB = false := by
  have H2' := typeTitleNodup_of_titlesNodup files H2
  have hmap : files.flatten.map (storedSpec files) = files.flatten := by
    rw [List.map_congr_left (fun e he => storedSpec_eq_self files H2 e he)]
    simp
  have hr1 : merge_bib_files Mode.auto files =
      Except.ok ⟨pySorted files.flatten, false, false, false, [], []⟩ := by
    rw [merge_collision_free Mode.auto files H1 H2' H3, hmap]
  have hperm : List.Perm (pySorted files.flatten) files.flatten := pySorted_perm _
  have hflat : ([pySorted files.flatten] : List (List Entry)).flatten =
      pySorted files.flatten := by simp
  have H1' : (files.flatten.map (·.key)).Nodup := H1
  have H2v : (files.flatten.filterMap normTitle).Nodup := H2
  have hk2 : keysNodup [pySorted files.flatten] := by
    unfold keysNodup
    rw [hflat]
    exact ((hperm.map (·.key)).nodup_iff).mpr H1'
  have ht2 : titlesNodup [pySorted files.flatten] := by
    unfold titlesNodup
    rw [hflat]
    exact ((hperm.filterMap normTitle).nodup_iff).mpr H2v
  have hs2 : sourcesBib [pySorted files.flatten] := by
    unfold sourcesBib
    intro e he
    rw [hflat] at he
    exact H3 e (hperm.mem_iff.mp he)
  have hmap2 : ([pySorted files.flatten] : List (List Entry)).flatten.map
      (storedSpec [pySorted files.flatten]) = pySorted files.flatten := by
    rw [hflat,
      List.map_congr_left (fun e he =>
        storedSpec_eq_self [pySorted files.flatten] ht2 e (by rw [hflat]; exact he))]
    simp
  have hr2 : merge_bib_files Mode.auto [pySorted files.flatten] =
      Except.ok ⟨pySorted files.flatten, false, false, false, [], []⟩ := by
    rw [merge_collision_free Mode.auto [pySorted files.flatten] hk2
      (typeTitleNodup_of_titlesNodup _ ht2) hs2, hmap2,
      pySorted_of_sorted _ (pySorted_pairwise _)]
  exact ⟨_, _, hr1, hr2, rfl, rfl, rfl, rfl, rfl⟩

/-- C9 witness: the collision-free store `[[exV0], [exV1]]` satisfies the
amended theorem's hypotheses. -/
theorem c9_idempotent_when_collision_free_witness :
    (keysNodup [[exV0], [exV1]] ∧ titlesNodup [[exV0], [exV1]] ∧
      sourcesBib [[exV0], [exV1]]) ∧
    (∃ r1 r2 : MergeResult,
      merge_bib_files Mode.auto [[exV0], [exV1]] = Except.ok r1 ∧
      merge_bib_files Mode.auto [r1.output] = Except.ok r2 ∧
      r2.output = r1.output ∧
      r1.passA = false ∧ r1.passB = false ∧ r2.passA = false ∧ r2.passB = false) :=
  ⟨⟨by unfold keysNodup; decide, by unfold titlesNodup; decide,
      by unfold sourcesBib; decide⟩,
    c9_idempotent_when_collision_free [[exV0], [exV1]]
      (by unfold keysNodup; decide) (by unfold titlesNodup; decide)
      (by unfold sourcesBib; decide)⟩

/-- C3 (amended): for a pair of records with identical identifier but
different types (one per `.bib` source file), no conflict of either kind is
reported — pass A finds no same-title groups with distinct keys and pass B's
`(key, type)` groups are singletons — but both records do NOT survive: the
merge loop deduplicates by identifier alone (lines 343-344), so only the
first record in ingestion order is stored and the second is silently
dropped. -/
theorem c3_pair_run_first_survives (e0 e1 : Entry) (hk : e1.key = e0.key)
    (hty : e0.etype ≠ e1.etype)
    (hbib0 : endsWithStr e0.source ".bib" = true) :
    (merge_bib_files Mode.auto [[e0], [e1]]).map
        (fun r => (r.output, r.passA, r.passB, r.finalFlag)) =
      Except.ok ([e0], false, false, false) := by
  have hu : merge_bib_files Mode.auto [[e0], [e1]] =
      (check_same_title_different_keys [e0, e1] [titlesToKeys [e0], titlesToKeys [e1]] >>=
        fun pa =>
        check_same_key_different_titles Mode.auto [e0, e1] >>= fun pb =>
        (([(0, e0), (1, e1)] : List (Nat × Entry)).foldlM
            (fun st p => if pb.skips.contains p.1 then pure st
              else mergeStep Mode.auto [e0, e1] [titlesToKeys [e0], titlesToKeys [e1]]
                st p.2)
          (⟨[], [], []⟩ : MergeState)) >>= fun fin =>
        pure ⟨pySorted (fin.merged.map (·.2)), pa, pb.issues, pb.issues, pb.log,
          fin.tlog⟩) := rfl
  rw [hu, passA_pair_ok e0 e1 hk hbib0, except_bind_ok,
    passB_pair_difftype Mode.auto e0 e1 hk hty, except_bind_ok]
  have hfold : (([(0, e0), (1, e1)] : List (Nat × Entry)).foldlM
      (fun st p => if (⟨false, [], [], []⟩ : PassBResult).skips.contains p.1 then pure st
        else mergeStep Mode.auto [e0, e1] [titlesToKeys [e0], titlesToKeys [e1]] st p.2)
      (⟨[], [], []⟩ : MergeState)) = Except.ok ⟨[(e0.key, e0)], [], []⟩ := by
    show (mergeStep Mode.auto [e0, e1] [titlesToKeys [e0], titlesToKeys [e1]]
        ⟨[], [], []⟩ e0 >>= fun b =>
        mergeStep Mode.auto [e0, e1] [titlesToKeys [e0], titlesToKeys [e1]] b e1 >>=
          fun b2 => pure b2) = Except.ok ⟨[(e0.key, e0)], [], []⟩
    rw [mergeStep_pair_first e0 e1 hk, except_bind_ok,
      mergeStep_pair_second e0 e1 hk hty, except_bind_ok]
    rfl
  rw [hfold, except_bind_ok]
  rfl

/-- C3 witness: the concrete same-key different-type pair `exC0` / `exC1`. -/
theorem c3_pair_run_first_survives_witness :
    (exC1.key = exC0.key ∧ exC0.etype ≠ exC1.etype ∧
      endsWithStr exC0.source ".bib" = true) ∧
    (merge_bib_files Mode.auto [[exC0], [exC1]]).map
        (fun r => (r.output, r.passA, r.passB, r.finalFlag)) =
      Except.ok ([exC0], false, false, false) :=
  ⟨⟨by decide, by decide, by decide⟩,
    c3_pair_run_first_survives exC0 exC1 (by decide) (by decide) (by decide)⟩

/-- C2 (amended, resolution part): for a run whose records are exactly two
records with identical identifier, identical type, and different normalized
titles (one per `.bib` source file, the first with a parseable-or-absent file
index), pass B reports the conflict, marks the higher-index record `skip`,
and the output contains exactly the lower source_index record.  (The claim's
further clause that the loser is excluded "from subsequent title-based
grouping" is refuted separately by the counterexample.) -/
theorem c2_pair_run_lower_index_survives (e0 e1 : Entry) (hk : e1.key = e0.key)
    (hty : e1.etype = e0.etype) (t0 t1 : String)
    (hnt0 : normTitle e0 = some t0) (hnt1 : normTitle e1 = some t1) (hne : t1 ≠ t0)
    (hbib0 : endsWithStr e0.source ".bib" = true)
    (v : Option Int) (hv : get_file_index e0 = Except.ok v) :
    (merge_bib_files Mode.auto [[e0], [e1]]).map
        (fun r => (r.output, r.passA, r.passB, r.finalFlag)) =
      Except.ok ([e0], false, true, true) := by
  have htit : normTitle e1 ≠ normTitle e0 := by
    rw [hnt0, hnt1]
    simp [hne]
  have hne' : e1 ≠ e0 := fun h => htit (by rw [h])
  have hu : merge_bib_files Mode.auto [[e0], [e1]] =
      (check_same_title_different_keys [e0, e1] [titlesToKeys [e0], titlesToKeys [e1]] >>=
        fun pa =>
        check_same_key_different_titles Mode.auto [e0, e1] >>= fun pb =>
        (([(0, e0), (1, e1)] : List (Nat × Entry)).foldlM
            (fun st p => if pb.skips.contains p.1 then pure st
              else mergeStep Mode.auto [e0, e1] [titlesToKeys [e0], titlesToKeys [e1]]
                st p.2)
          (⟨[], [], []⟩ : MergeState)) >>= fun fin =>
        pure ⟨pySorted (fin.merged.map (·.2)), pa, pb.issues, pb.issues, pb.log,
          fin.tlog⟩) := rfl
  rw [hu, passA_pair_ok e0 e1 hk hbib0, except_bind_ok,
    passB_pair_conflict e0 e1 hk hty hne' htit v hv, except_bind_ok]
  have hfold : (([(0, e0), (1, e1)] : List (Nat × Entry)).foldlM
      (fun st p => if (⟨true, [1], [(e0.key, e0)], []⟩ : PassBResult).skips.contains p.1
        then pure st
        else mergeStep Mode.auto [e0, e1] [titlesToKeys [e0], titlesToKeys [e1]] st p.2)
      (⟨[], [], []⟩ : MergeState)) = Except.ok ⟨[(e0.key, e0)], [], []⟩ := by
    show (mergeStep Mode.auto [e0, e1] [titlesToKeys [e0], titlesToKeys [e1]]
        ⟨[], [], []⟩ e0 >>= fun b =>
        (pure b : Except PyErr MergeState) >>= fun b2 => pure b2) =
      Except.ok ⟨[(e0.key, e0)], [], []⟩
    rw [mergeStep_pair_first e0 e1 hk, except_bind_ok]
    rfl
  rw [hfold, except_bind_ok]
  rfl

/-- C2 witness: the concrete same-key different-title pair `exD0` / `exD1`. -/
theorem c2_pair_run_lower_index_survives_witness :
    (exD1.key = exD0.key ∧ exD1.etype = exD0.etype ∧
      normTitle exD0 = some "title one" ∧ normTitle exD1 = some "title two" ∧
      "title two" ≠ "title one" ∧ endsWithStr exD0.source ".bib" = true ∧
      get_file_index exD0 = Except.ok none) ∧
    (merge_bib_files Mode.auto [[exD0], [exD1]]).map
        (fun r => (r.output, r.passA, r.passB, r.finalFlag)) =
      Except.ok ([exD0], false, true, true) :=
  ⟨⟨by decide, by decide, by decide, by decide, by decide, by decide, by decide⟩,
    c2_pair_run_lower_index_survives exD0 exD1 (by decide) (by decide)
      "title one" "title two" (by decide) (by decide) (by decide) (by decide)
      none (by decide)⟩

end BibMerger
